import Mathlib

/-!
Verification of the rcs-parser repository: a shallow embedding of its
comma-v (RCS file) parser in Lean 4, together with theorems settling the
frozen claims about the natural-language specification.

Conventions of the embedding:
* Rust `&str` inputs become `List Char`; the unconsumed remainder is
  returned explicitly, as nom does.
* A nom parser `IResult<&str, T, VerboseError<&str>>` becomes
  `List Char → PRes T`: `PRes.ok rest v` is `Ok((rest, v))`,
  `PRes.fail pos kind` is `Err(Err::Error(..))` carrying the innermost
  error position (the remaining input at the failure point) and its
  nom `ErrorKind`; `PRes.panic` models a Rust panic (the `unwrap()`
  calls in `parse_num`, `parse_diff_command` and `build_deltas`).
* Machine integers (`u32`) are `Nat` with the `< 2^32` bound checked
  exactly where the source can overflow (`u32::from_str_radix(..).unwrap()`:
  success below `2^32`, panic at or above it).
* Loops that walk the input (`many0`, `separated_list1`, the assembler
  loops) take an explicit fuel argument; every wrapper instantiates the
  fuel with `input.length + 1`, which is enough because each iteration
  consumes at least one character.
-/

set_option maxRecDepth 100000

namespace Rcs

/-- nom `ErrorKind` values produced by the parsers of this repository. -/
inductive ErrKind : Type where
  | tag : ErrKind
  | digit : ErrKind
  | oneOf : ErrKind
  | crlf : ErrKind
  | takeWhile1 : ErrKind
  | takeUntil : ErrKind
  | many : ErrKind
  deriving DecidableEq, Repr

/-- Result of running an embedded nom parser: success with remainder,
structured error at a position, or a Rust panic. -/
inductive PRes (α : Type) : Type where
  | ok : List Char → α → PRes α
  | fail : List Char → ErrKind → PRes α
  | panic : PRes α
  deriving DecidableEq, Repr

/-- True on a successful parse. -/
def PRes.isOk {α : Type} : PRes α → Bool
  | .ok _ _ => true
  | _ => false

/-- Whitespace recognized by nom `multispace0`/`multispace1`. -/
def isWs (c : Char) : Bool :=
  c = ' ' || c = '\t' || c = '\r' || c = '\n'

/-- Whitespace recognized by nom `space0` (spaces and tabs only). -/
def isSpaceTab (c : Char) : Bool :=
  c = ' ' || c = '\t'

/-- ASCII decimal digit, as recognized by nom `digit1`. -/
def isDigitC (c : Char) : Bool :=
  '0' ≤ c && c ≤ '9'

/-- chars.rs `is_special_chars`: the six special characters of the grammar. -/
def is_special_chars (c : Char) : Bool :=
  c = '$' || c = ',' || c = '.' || c = ':' || c = ';' || c = '@'

/-- chars.rs `is_visible_char`: codes 0x21-0x7e and 0xA0-0xff. -/
def is_visible_char (c : Char) : Bool :=
  ('!' ≤ c && c ≤ '~') || (Char.ofNat 0xA0 ≤ c && c ≤ Char.ofNat 0xFF)

/-- chars.rs `is_idchar`: visible and not special. -/
def is_idchar (c : Char) : Bool :=
  is_visible_char c && !is_special_chars c

/-- nom `tag`: literal match, returning the remainder on success. -/
def tagP : List Char → List Char → Option (List Char)
  | [], input => some input
  | _ :: _, [] => none
  | c :: cs, d :: ds => if c = d then tagP cs ds else none

/-- nom `multispace0`: drop any run of whitespace (never fails). -/
def ms0 (input : List Char) : List Char :=
  input.dropWhile isWs

/-- nom `multispace1`: require at least one whitespace character. -/
def ms1 (input : List Char) : PRes Unit :=
  match input with
  | c :: rest => if isWs c then .ok ((c :: rest).dropWhile isWs) () else .fail (c :: rest) .takeWhile1
  | [] => .fail [] .takeWhile1

/-- nom `take_while1 p`: a nonempty maximal run of characters satisfying `p`. -/
def takeWhile1P (p : Char → Bool) (k : ErrKind) (input : List Char) : PRes (List Char) :=
  match input with
  | c :: rest =>
      if p c then .ok ((c :: rest).dropWhile p) ((c :: rest).takeWhile p)
      else .fail (c :: rest) k
  | [] => .fail [] k

/-- nom `digit1`. -/
def digit1P (input : List Char) : PRes (List Char) :=
  takeWhile1P isDigitC .digit input

/-- nom `line_ending`: `\n` or `\r\n`. -/
def line_endingP (input : List Char) : PRes Unit :=
  match input with
  | '\n' :: rest => .ok rest ()
  | '\r' :: '\n' :: rest => .ok rest ()
  | other => .fail other .crlf

/-- nom `one_of s`: the next character must be in `s`. -/
def one_ofP (s : List Char) (input : List Char) : PRes Char :=
  match input with
  | c :: rest => if c ∈ s then .ok rest c else .fail (c :: rest) .oneOf
  | [] => .fail [] .oneOf

/-- The numeric value of a digit character. -/
def digitVal (c : Char) : Nat := c.toNat - '0'.toNat

/-- The value of a run of decimal digits (what `u32::from_str_radix(d, 10)`
computes, before the range check). -/
def natOfDigits (ds : List Char) : Nat :=
  ds.foldl (fun acc c => acc * 10 + digitVal c) 0

/-- Revision number: lib.rs `Num` (a `Vec<u32>` of dotted components). -/
structure Num : Type where
  numbers : List Nat
  deriving DecidableEq, Repr

/-- num.rs `is_branch`: odd component count. -/
def Num.is_branch (n : Num) : Bool :=
  n.numbers.length % 2 = 1

/-- num.rs `is_revision`: complement of `is_branch`. -/
def Num.is_revision (n : Num) : Bool :=
  !n.is_branch

/-- num.rs `is_valid_revision`: nonempty, even length, all components positive. -/
def Num.is_valid_revision (n : Num) : Bool :=
  !n.numbers.isEmpty && n.is_revision && n.numbers.all (fun k => 0 < k)

/-- num.rs `get_branching_point`: drop the last component (odd length) or the
last two (even length). -/
def Num.get_branching_point (n : Num) : Num :=
  if n.is_branch then ⟨n.numbers.take (n.numbers.length - 1)⟩
  else ⟨n.numbers.take (n.numbers.length - 2)⟩

/-- The loop body of num.rs `get_branching_points`: `while i < len then push
numbers[0..i]; i += 2`, with fuel (the wrapper passes enough for the whole
walk). -/
def branchLoop (numbers : List Nat) : Nat → Nat → List Num
  | 0, _ => []
  | fuel + 1, i =>
      if i < numbers.length then ⟨numbers.take i⟩ :: branchLoop numbers fuel (i + 2)
      else []

/-- num.rs `get_branching_points`: all even-length proper prefixes, shortest
first. -/
def Num.get_branching_points (n : Num) : List Num :=
  branchLoop n.numbers (n.numbers.length + 1) 2

/-- The comparison derived for `Vec<u32>` by `#[derive(PartialOrd, Ord)]`:
element-wise numeric comparison, a strict prefix comparing smaller. -/
def listCmp : List Nat → List Nat → Ordering
  | [], [] => .eq
  | [], _ :: _ => .lt
  | _ :: _, [] => .gt
  | a :: as, b :: bs =>
      if a < b then .lt else if b < a then .gt else listCmp as bs

/-- The derived strict order on `Num` (the `BTreeMap` key order). -/
def numLt (a b : Num) : Bool :=
  listCmp a.numbers b.numbers = .lt

/-- num.rs `parse_num`: the continuation loop of
`separated_list1(tag("."), map(digit1, |d| u32::from_str_radix(d, 10).unwrap()))`.
A `.` followed by digits extends the list; a `.` not followed by digits is
left unconsumed; a digit group at or above `2^32` is the `unwrap` panic. -/
def numLoop : Nat → List Nat → List Char → PRes (List Nat)
  | 0, _, input => .fail input .digit
  | fuel + 1, acc, input =>
      match input with
      | c :: rest =>
          if c = '.' then
            let ds := rest.takeWhile isDigitC
            if ds.isEmpty then .ok (c :: rest) acc.reverse
            else if natOfDigits ds < 2 ^ 32 then
              numLoop fuel (natOfDigits ds :: acc) (rest.dropWhile isDigitC)
            else .panic
          else .ok (c :: rest) acc.reverse
      | [] => .ok [] acc.reverse

/-- num.rs `parse_num`. -/
def parse_num (input : List Char) : PRes Num :=
  match digit1P input with
  | .ok rest ds =>
      if natOfDigits ds < 2 ^ 32 then
        match numLoop (rest.length + 1) [natOfDigits ds] rest with
        | .ok rest' ns => .ok rest' ⟨ns⟩
        | .fail p k => .fail p k
        | .panic => .panic
      else .panic
  | .fail p _ => .fail p .digit
  | .panic => .panic

/-- string.rs `parse_string` body:
`many0(alt((is_not("@"), map(tag("@@"), |_| "@"))))` concatenated.
Consumes up to (not including) the first single unescaped `@`, turning each
`@@` pair into one `@`. -/
def stringBody : List Char → (List Char × List Char)
  | [] => ([], [])
  | c :: rest =>
      if c = '@' then
        match rest with
        | c2 :: rest2 =>
            if c2 = '@' then
              let (d, r) := stringBody rest2
              ('@' :: d, r)
            else ([], c :: rest)
        | [] => ([], [c])
      else
        let (d, r) := stringBody rest
        (c :: d, r)

/-- string.rs `parse_string`: `delimited(tag("@"), body, tag("@"))`. -/
def parse_string (input : List Char) : PRes (List Char) :=
  match input with
  | c :: rest =>
      if c = '@' then
        match stringBody rest with
        | (d, r0 :: r1) => if r0 = '@' then .ok r1 d else .fail (r0 :: r1) .tag
        | (_, []) => .fail [] .tag
      else .fail (c :: rest) .tag
  | [] => .fail [] .tag

/-- string.rs `parse_intstring`:
`delimited(tag("@"), take_until("@"), tag("@"))` (no unescaping). -/
def parse_intstring (input : List Char) : PRes (List Char) :=
  match input with
  | c :: rest =>
      if c = '@' then
        if rest.any (fun c2 => c2 = '@') then
          .ok ((rest.dropWhile (fun c2 => c2 ≠ '@')).drop 1) (rest.takeWhile (fun c2 => c2 ≠ '@'))
        else .fail rest .takeUntil
      else .fail (c :: rest) .tag
  | [] => .fail [] .tag

/-- lib.rs `DiffCommand` (the `Head` variant is unused by the parsers). -/
inductive DiffCommand : Type where
  | Add : Nat → List (List Char) → DiffCommand
  | Delete : Nat → Nat → DiffCommand
  deriving DecidableEq, Repr

/-- diff.rs `parse_diff_line`: `terminated(not_line_ending, line_ending)`.
nom `not_line_ending` takes everything before the next `\r` or `\n` and
rejects a `\r` not followed by `\n`. -/
def parse_diff_line (input : List Char) : PRes (List Char) :=
  let content := input.takeWhile (fun c => c ≠ '\r' && c ≠ '\n')
  let rest := input.dropWhile (fun c => c ≠ '\r' && c ≠ '\n')
  match rest with
  | '\n' :: r => .ok r content
  | '\r' :: '\n' :: r => .ok r content
  | other => .fail other .crlf

/-- diff.rs `parse_diff_lines`: read exactly `line_count` lines
(`for _ in 1..=line_count`), failing where any line fails. -/
def parse_diff_lines (input : List Char) : Nat → PRes (List (List Char))
  | 0 => .ok input []
  | n + 1 =>
      match parse_diff_line input with
      | .ok rest line =>
          match parse_diff_lines rest n with
          | .ok rest2 lines => .ok rest2 (line :: lines)
          | e => e
      | .fail p k => .fail p k
      | .panic => .panic

/-- diff.rs `parse_diff_command`: `one_of("ad")`, position, count (both
`u32::from_str_radix(..).unwrap()`, so `≥ 2^32` panics), then the add body
of exactly `count` lines for `a`, or `Delete` for `d`. -/
def parse_diff_command (input : List Char) : PRes DiffCommand :=
  match one_ofP ['a', 'd'] input with
  | .ok i1 command =>
      match digit1P (ms0 i1) with
      | .ok i2 ds1 =>
          if natOfDigits ds1 < 2 ^ 32 then
            match ms1 i2 with
            | .ok i3 _ =>
                match digit1P i3 with
                | .ok i4 ds2 =>
                    if natOfDigits ds2 < 2 ^ 32 then
                      match line_endingP (i4.dropWhile isSpaceTab) with
                      | .ok i5 _ =>
                          if command = 'a' then
                            match parse_diff_lines i5 (natOfDigits ds2) with
                            | .ok i6 lines => .ok i6 (.Add (natOfDigits ds1) lines)
                            | .fail p k => .fail p k
                            | .panic => .panic
                          else .ok i5 (.Delete (natOfDigits ds1) (natOfDigits ds2))
                      | .fail p k => .fail p k
                      | .panic => .panic
                    else .panic
                | .fail p k => .fail p k
                | .panic => .panic
            | .fail p k => .fail p k
            | .panic => .panic
          else .panic
      | .fail p k => .fail p k
      | .panic => .panic
  | .fail p k => .fail p k
  | .panic => .panic

/-- combinators.rs `parse_value`:
`delimited(preceded(ms0, tag(key)), preceded(ms0, f), preceded(ms0, tag(";")))`
(the `ctx` label only decorates errors and is dropped here). -/
def parse_value {α : Type} (key : List Char) (f : List Char → PRes α)
    (input : List Char) : PRes α :=
  match tagP key (ms0 input) with
  | none => .fail (ms0 input) .tag
  | some i2 =>
      match f (ms0 i2) with
      | .ok i3 v =>
          match tagP [';'] (ms0 i3) with
          | some i4 => .ok i4 v
          | none => .fail (ms0 i3) .tag
      | .fail p k => .fail p k
      | .panic => .panic

/-- combinators.rs `parse_value_opt`: like `parse_value` with an `opt`
payload, so a bare `keyword ;` yields `none`. -/
def parse_value_opt {α : Type} (key : List Char) (f : List Char → PRes α)
    (input : List Char) : PRes (Option α) :=
  match tagP key (ms0 input) with
  | none => .fail (ms0 input) .tag
  | some i2 =>
      match f (ms0 i2) with
      | .ok i3 v =>
          match tagP [';'] (ms0 i3) with
          | some i4 => .ok i4 (some v)
          | none => .fail (ms0 i3) .tag
      | .fail _ _ =>
          match tagP [';'] (ms0 (ms0 i2)) with
          | some i4 => .ok i4 none
          | none => .fail (ms0 (ms0 i2)) .tag
      | .panic => .panic

/-- combinators.rs `parse_value_all_opt`: the whole
`keyword value ;` clause wrapped in `opt`, so any failure inside the clause
backtracks to the original input with `none`. -/
def parse_value_all_opt {α : Type} (key : List Char) (f : List Char → PRes α)
    (input : List Char) : PRes (Option α) :=
  match tagP key (ms0 input) with
  | none => .ok input none
  | some i2 =>
      match f (ms0 i2) with
      | .ok i3 v =>
          match tagP [';'] (ms0 i3) with
          | some i4 => .ok i4 (some v)
          | none => .ok input none
      | .fail _ _ => .ok input none
      | .panic => .panic

/-- nom `many0 f` with fuel: stop at the first failing attempt
(backtracking it), error on an attempt that succeeds without consuming. -/
def many0F {α : Type} (f : List Char → PRes α) : Nat → List Char → PRes (List α)
  | 0, input => .ok input []
  | fuel + 1, input =>
      match f input with
      | .fail _ _ => .ok input []
      | .panic => .panic
      | .ok rest v =>
          if rest.length < input.length then
            match many0F f fuel rest with
            | .ok r vs => .ok r (v :: vs)
            | e => e
          else .fail input .many

/-- combinators.rs `parse_value_many0`:
`delimited(preceded(ms0, tag(key)), many0(preceded(ms1, f)), preceded(ms0, tag(";")))`. -/
def parse_value_many0 {α : Type} (key : List Char) (f : List Char → PRes α)
    (input : List Char) : PRes (List α) :=
  match tagP key (ms0 input) with
  | none => .fail (ms0 input) .tag
  | some i2 =>
      match many0F (fun s =>
          match ms1 s with
          | .ok t _ => f t
          | .fail p k => .fail p k
          | .panic => .panic) (i2.length + 1) i2 with
      | .ok i3 vs =>
          match tagP [';'] (ms0 i3) with
          | some i4 => .ok i4 vs
          | none => .fail (ms0 i3) .tag
      | .fail p k => .fail p k
      | .panic => .panic

/-- chars.rs `parse_sym`: `take_while1(is_idchar)`. -/
def parse_sym (input : List Char) : PRes (List Char) :=
  takeWhile1P is_idchar .takeWhile1 input

/-- chars.rs `parse_id`: `take_while1(|c| is_idchar(c) || c == '.')`. -/
def parse_id (input : List Char) : PRes (List Char) :=
  takeWhile1P (fun c => is_idchar c || c = '.') .takeWhile1 input

/-- admin.rs symbols/locks payload:
`separated_pair(firstP, tag(":"), parse_num)` — note: no whitespace is
consumed around the `:`. -/
def pairPayload (firstP : List Char → PRes (List Char)) (input : List Char) :
    PRes (List Char × Num) :=
  match firstP input with
  | .ok i1 s =>
      match tagP [':'] i1 with
      | some i2 =>
          match parse_num i2 with
          | .ok i3 n => .ok i3 (s, n)
          | .fail p k => .fail p k
          | .panic => .panic
      | none => .fail i1 .tag
  | .fail p k => .fail p k
  | .panic => .panic

/-- lib.rs `Text`: a head revision body or a diff-command stream. -/
inductive Text : Type where
  | Head : List Char → Text
  | Diff : List DiffCommand → Text
  deriving DecidableEq, Repr

/-- lib.rs `Delta`; `log` and `text` are placeholders until the merge step
fills them (spec section 3, Lifecycle). -/
structure Delta : Type where
  num : Num
  date : Num
  author : List Char
  state : Option (List Char)
  branches : List Num
  next : Option Num
  commitid : Option (List Char)
  log : List Char
  text : Text
  deriving DecidableEq, Repr

/-- deltatext.rs `DeltaText`. -/
structure DeltaText : Type where
  num : Num
  log : List Char
  text : Text
  deriving DecidableEq, Repr

/-- lib.rs `RcsData`; `deltas` models the `BTreeMap<Num, Delta>` as an
association list sorted by the derived `Num` order. -/
structure RcsData : Type where
  head : Num
  branch : Option Num
  access : List (List Char)
  symbols : List (List Char × Num)
  locks : List (List Char × Num)
  strict : Bool
  integrity : Option (List Char)
  comment : Option (List Char)
  expand : Option (List Char)
  desc : List Char
  deltas : List (Num × Delta)
  deriving DecidableEq, Repr

/-- admin.rs `parse_strict`:
`opt(terminated(preceded(ms0, tag("strict")), preceded(ms0, tag(";"))))`
mapped to presence. -/
def parse_strict (input : List Char) : PRes Bool :=
  match tagP "strict".toList (ms0 input) with
  | some i2 =>
      match tagP [';'] (ms0 i2) with
      | some i3 => .ok i3 true
      | none => .ok input false
  | none => .ok input false

/-- admin.rs `parse_admin`: the fixed clause sequence producing an `RcsData`
with empty `desc` and `deltas`. -/
def parse_admin (input : List Char) : PRes RcsData :=
  match parse_value "head".toList parse_num input with
  | .ok i1 head =>
      match parse_value_all_opt "branch".toList parse_num i1 with
      | .ok i2 branch =>
          match parse_value_many0 "access".toList parse_id i2 with
          | .ok i3 access =>
              match parse_value_many0 "symbols".toList (pairPayload parse_sym) i3 with
              | .ok i4 symbols =>
                  match parse_value_many0 "locks".toList (pairPayload parse_id) i4 with
                  | .ok i5 locks =>
                      match parse_strict i5 with
                      | .ok i6 strict =>
                          match parse_value_all_opt "integrity".toList parse_intstring i6 with
                          | .ok i7 integrity =>
                              match parse_value_all_opt "comment".toList parse_string i7 with
                              | .ok i8 comment =>
                                  match parse_value_all_opt "expand".toList parse_string i8 with
                                  | .ok i9 expand =>
                                      .ok i9 { head := head, branch := branch,
                                               access := access, symbols := symbols,
                                               locks := locks, strict := strict,
                                               integrity := integrity, comment := comment,
                                               expand := expand, desc := [], deltas := [] }
                                  | .fail p k => .fail p k
                                  | .panic => .panic
                              | .fail p k => .fail p k
                              | .panic => .panic
                          | .fail p k => .fail p k
                          | .panic => .panic
                      | .fail p k => .fail p k
                      | .panic => .panic
                  | .fail p k => .fail p k
                  | .panic => .panic
              | .fail p k => .fail p k
              | .panic => .panic
          | .fail p k => .fail p k
          | .panic => .panic
      | .fail p k => .fail p k
      | .panic => .panic
  | .fail p k => .fail p k
  | .panic => .panic

/-- delta.rs clause shape
`delimited(preceded(ms1, tag(key)), preceded(ms1, f), preceded(ms0, tag(";")))`. -/
def deltaClause {α : Type} (key : List Char) (f : List Char → PRes α)
    (input : List Char) : PRes α :=
  match ms1 input with
  | .ok i1 _ =>
      match tagP key i1 with
      | some i2 =>
          match ms1 i2 with
          | .ok i3 _ =>
              match f i3 with
              | .ok i4 v =>
                  match tagP [';'] (ms0 i4) with
                  | some i5 => .ok i5 v
                  | none => .fail (ms0 i4) .tag
              | .fail p k => .fail p k
              | .panic => .panic
          | .fail p k => .fail p k
          | .panic => .panic
      | none => .fail i1 .tag
  | .fail p k => .fail p k
  | .panic => .panic

/-- delta.rs clause shape with an `opt(preceded(ms1, f))` payload
(`state`, `next`). -/
def deltaClauseOpt {α : Type} (key : List Char) (f : List Char → PRes α)
    (input : List Char) : PRes (Option α) :=
  match ms1 input with
  | .ok i1 _ =>
      match tagP key i1 with
      | some i2 =>
          match (match ms1 i2 with
                 | .ok i3 _ => f i3
                 | .fail p k => .fail p k
                 | .panic => .panic) with
          | .ok i4 v =>
              match tagP [';'] (ms0 i4) with
              | some i5 => .ok i5 (some v)
              | none => .fail (ms0 i4) .tag
          | .fail _ _ =>
              match tagP [';'] (ms0 i2) with
              | some i5 => .ok i5 none
              | none => .fail (ms0 i2) .tag
          | .panic => .panic
      | none => .fail i1 .tag
  | .fail p k => .fail p k
  | .panic => .panic

/-- delta.rs `parse_branches`:
`delimited(preceded(ms1, tag("branches")), many0(preceded(ms1, parse_num)), preceded(ms0, tag(";")))`. -/
def parse_branches (input : List Char) : PRes (List Num) :=
  match ms1 input with
  | .ok i1 _ =>
      match tagP "branches".toList i1 with
      | some i2 =>
          match many0F (fun s =>
              match ms1 s with
              | .ok t _ => parse_num t
              | .fail p k => .fail p k
              | .panic => .panic) (i2.length + 1) i2 with
          | .ok i3 vs =>
              match tagP [';'] (ms0 i3) with
              | some i4 => .ok i4 vs
              | none => .fail (ms0 i3) .tag
          | .fail p k => .fail p k
          | .panic => .panic
      | none => .fail i1 .tag
  | .fail p k => .fail p k
  | .panic => .panic

/-- delta.rs `parse_commitid`, the clause inside the `opt`:
`delimited(preceded(ms1, tag("commitid")), preceded(ms1, parse_sym), preceded(ms0, tag(";")))`. -/
def commitidClause (input : List Char) : PRes (List Char) :=
  match ms1 input with
  | .ok i1 _ =>
      match tagP "commitid".toList i1 with
      | some i2 =>
          match ms1 i2 with
          | .ok i3 _ =>
              match parse_sym i3 with
              | .ok i4 v =>
                  match tagP [';'] (ms0 i4) with
                  | some i5 => .ok i5 v
                  | none => .fail (ms0 i4) .tag
              | .fail p k => .fail p k
              | .panic => .panic
          | .fail p k => .fail p k
          | .panic => .panic
      | none => .fail i1 .tag
  | .fail p k => .fail p k
  | .panic => .panic

/-- delta.rs `parse_commitid`: the whole `commitid sym ;` clause wrapped
in `opt`. -/
def parse_commitid (input : List Char) : PRes (Option (List Char)) :=
  match commitidClause input with
  | .ok i v => .ok i (some v)
  | .fail _ _ => .ok input none
  | .panic => .panic

/-- delta.rs `parse_delta`: bare `Num`, then the fixed clause sequence.
`log`/`text` are placeholders until the merge step. -/
def parse_delta (input : List Char) : PRes Delta :=
  match parse_num (ms0 input) with
  | .ok i1 num =>
      match deltaClause "date".toList parse_num i1 with
      | .ok i2 date =>
          match deltaClause "author".toList parse_id i2 with
          | .ok i3 author =>
              match deltaClauseOpt "state".toList parse_id i3 with
              | .ok i4 state =>
                  match parse_branches i4 with
                  | .ok i5 branches =>
                      match deltaClauseOpt "next".toList parse_num i5 with
                      | .ok i6 next =>
                          match parse_commitid i6 with
                          | .ok i7 commitid =>
                              .ok i7 { num := num, date := date, author := author,
                                       state := state, branches := branches,
                                       next := next, commitid := commitid,
                                       log := [], text := .Diff [] }
                          | .fail p k => .fail p k
                          | .panic => .panic
                      | .fail p k => .fail p k
                      | .panic => .panic
                  | .fail p k => .fail p k
                  | .panic => .panic
              | .fail p k => .fail p k
              | .panic => .panic
          | .fail p k => .fail p k
          | .panic => .panic
      | .fail p k => .fail p k
      | .panic => .panic
  | .fail p k => .fail p k
  | .panic => .panic

/-- deltatext.rs shared head: `num`, then `log string`. -/
def deltatextNumLog (input : List Char) : PRes (Num × List Char) :=
  match parse_num input with
  | .ok i1 num =>
      match ms1 i1 with
      | .ok i2 _ =>
          match tagP "log".toList i2 with
          | some i3 =>
              match ms1 i3 with
              | .ok i4 _ =>
                  match parse_string i4 with
                  | .ok i5 log => .ok i5 (num, log)
                  | .fail p k => .fail p k
                  | .panic => .panic
              | .fail p k => .fail p k
              | .panic => .panic
          | none => .fail i2 .tag
      | .fail p k => .fail p k
      | .panic => .panic
  | .fail p k => .fail p k
  | .panic => .panic

/-- deltatext.rs `parse_deltatext` (ordinary form): after `text` and
whitespace, `preceded(tag("@"), terminated(many0(parse_diff_command), tag("@")))`
— the diff stream is parsed inside the raw outer `@...@` with no unescaping. -/
def parse_deltatext (input : List Char) : PRes DeltaText :=
  match deltatextNumLog input with
  | .ok i5 (num, log) =>
      match ms1 i5 with
      | .ok i6 _ =>
          match tagP "text".toList i6 with
          | some i7 =>
              match ms1 i7 with
              | .ok i8 _ =>
                  match tagP ['@'] i8 with
                  | some i9 =>
                      match many0F parse_diff_command (i9.length + 1) i9 with
                      | .ok i10 cmds =>
                          match tagP ['@'] i10 with
                          | some i11 => .ok i11 ⟨num, log, .Diff cmds⟩
                          | none => .fail i10 .tag
                      | .fail p k => .fail p k
                      | .panic => .panic
                  | none => .fail i8 .tag
              | .fail p k => .fail p k
              | .panic => .panic
          | none => .fail i6 .tag
      | .fail p k => .fail p k
      | .panic => .panic
  | .fail p k => .fail p k
  | .panic => .panic

/-- deltatext.rs `parse_deltatext_head` (head form): the `text` payload is a
plain escaped string. -/
def parse_deltatext_head (input : List Char) : PRes DeltaText :=
  match deltatextNumLog input with
  | .ok i5 (num, log) =>
      match ms1 i5 with
      | .ok i6 _ =>
          match tagP "text".toList i6 with
          | some i7 =>
              match ms1 i7 with
              | .ok i8 _ =>
                  match parse_string i8 with
                  | .ok i9 s => .ok i9 ⟨num, log, .Head s⟩
                  | .fail p k => .fail p k
                  | .panic => .panic
              | .fail p k => .fail p k
              | .panic => .panic
          | none => .fail i6 .tag
      | .fail p k => .fail p k
      | .panic => .panic
  | .fail p k => .fail p k
  | .panic => .panic

/-- rcsdata.rs `parse_deltas`: `many0(parse_delta)`. -/
def parse_deltas (input : List Char) : PRes (List Delta) :=
  many0F parse_delta (input.length + 1) input

/-- rcsdata.rs `parse_desc`:
`preceded(preceded(ms1, tag("desc")), preceded(ms1, parse_string))`. -/
def parse_desc (input : List Char) : PRes (List Char) :=
  match ms1 input with
  | .ok i1 _ =>
      match tagP "desc".toList i1 with
      | some i2 =>
          match ms1 i2 with
          | .ok i3 _ => parse_string i3
          | .fail p k => .fail p k
          | .panic => .panic
      | none => .fail i1 .tag
  | .fail p k => .fail p k
  | .panic => .panic

/-- rcsdata.rs `parse_deltatexts`: one head-form block, then
`many0(preceded(ms0, parse_deltatext))`, head block first. -/
def parse_deltatexts (input : List Char) : PRes (List DeltaText) :=
  match parse_deltatext_head (ms0 input) with
  | .ok i1 dh =>
      match many0F (fun s => parse_deltatext (ms0 s)) (i1.length + 1) i1 with
      | .ok i2 dts => .ok i2 (dh :: dts)
      | .fail p k => .fail p k
      | .panic => .panic
  | .fail p k => .fail p k
  | .panic => .panic

/-- `BTreeMap::insert`: insertion into the key-sorted association list,
replacing an equal key. -/
def btInsert (k : Num) (v : Delta) : List (Num × Delta) → List (Num × Delta)
  | [] => [(k, v)]
  | (k', v') :: t =>
      match listCmp k.numbers k'.numbers with
      | .lt => (k, v) :: (k', v') :: t
      | .eq => (k, v) :: t
      | .gt => (k', v') :: btInsert k v t

/-- The second loop of rcsdata.rs `build_deltas`:
`let mut d = dtree.get_mut(&t.num).unwrap(); d.log = t.log; d.text = t.text;`
— `none` models the `unwrap` panic on a `DeltaText` with no matching header. -/
def buildLoop : List DeltaText → List (Num × Delta) → Option (List (Num × Delta))
  | [], tree => some tree
  | t :: ts, tree =>
      if tree.any (fun p => listCmp p.1.numbers t.num.numbers = .eq) then
        buildLoop ts (tree.map (fun p =>
          if listCmp p.1.numbers t.num.numbers = .eq then
            (p.1, { p.2 with log := t.log, text := t.text })
          else p))
      else none

/-- rcsdata.rs `build_deltas`: insert every header into the map, then copy
`log`/`text` from each `DeltaText` into its matching entry. -/
def build_deltas (deltas : List Delta) (texts : List DeltaText) :
    Option (List (Num × Delta)) :=
  buildLoop texts (deltas.foldl (fun tree d => btInsert d.num d tree) [])

/-- rcsdata.rs `parse_rcs`: admin, delta headers, `desc`, delta texts, one
trailing line ending, then the merge; a failed merge lookup is the `unwrap`
panic. -/
def parse_rcs (input : List Char) : PRes RcsData :=
  match parse_admin input with
  | .ok i1 rcs =>
      match parse_deltas i1 with
      | .ok i2 deltas =>
          match parse_desc i2 with
          | .ok i3 desc =>
              match parse_deltatexts i3 with
              | .ok i4 texts =>
                  match line_endingP i4 with
                  | .ok i5 _ =>
                      match build_deltas deltas texts with
                      | some tree => .ok i5 { rcs with desc := desc, deltas := tree }
                      | none => .panic
                  | .fail p k => .fail p k
                  | .panic => .panic
              | .fail p k => .fail p k
              | .panic => .panic
          | .fail p k => .fail p k
          | .panic => .panic
      | .fail p k => .fail p k
      | .panic => .panic
  | .fail p k => .fail p k
  | .panic => .panic

/-- Escaping of an `@`-string body: every `@` of the content is doubled
(the inverse of the `parse_string` decoding rule). -/
def escapeAt (s : List Char) : List Char :=
  s.flatMap (fun c => if c = '@' then ['@', '@'] else [c])

/-- The specification's order on number sequences, stated in its own words:
either the two sequences agree on a common front and the first differing
components compare numerically, or the first sequence is a strict front part
of the second (shorter-is-smaller). -/
def lexSpecL (as bs : List Nat) : Prop :=
  (∃ k x y, as.take k = bs.take k ∧ as.get? k = some x ∧ bs.get? k = some y ∧ x < y)
  ∨ (as.length < bs.length ∧ as = bs.take as.length)

/-- A `Delta` with only the revision number set, used to exercise the merge
and ordering steps on concrete inputs. -/
def mkDelta (n : Num) : Delta :=
  { num := n, date := ⟨[]⟩, author := [], state := none, branches := [],
    next := none, commitid := none, log := [], text := .Diff [] }

/-- The specification's order on `Num`. -/
def numLtSpec (a b : Num) : Prop :=
  lexSpecL a.numbers b.numbers

/-- Head-character test: `true` when the input is empty or its first
character fails `p` (the boundary condition for maximal-run lexers). -/
def headNot (p : Char → Bool) : List Char → Bool
  | [] => true
  | c :: _ => !p c

/-- The input begins with whitespace or `;` (what follows a rendered list
element inside an admin clause). -/
def wsOrSemi : List Char → Bool
  | [] => false
  | c :: _ => isWs c || c = ';'

/-- Token content of an admin block: everything except the whitespace
layout. Numbers are kept as their digit groups so that two blocks differing
only in whitespace have literally the same tokens. -/
structure AdminTokens : Type where
  headN : List (List Char)
  branchN : Option (List (List Char))
  accessI : List (List Char)
  symbolsP : List (List Char × List (List Char))
  locksP : List (List Char × List (List Char))
  strictF : Bool
  integrityS : Option (List Char)
  commentS : Option (List Char)
  expandS : Option (List Char)

/-- Whitespace layout of an admin block: one slot before every keyword,
between keyword and payload, before every `;`, and before each list
element. -/
structure AdminLayout : Type where
  hw0 : List Char
  hw1 : List Char
  hw2 : List Char
  bw0 : List Char
  bw1 : List Char
  bw2 : List Char
  aw0 : List Char
  awE : List (List Char)
  awZ : List Char
  sw0 : List Char
  swE : List (List Char)
  swZ : List Char
  lw0 : List Char
  lwE : List (List Char)
  lwZ : List Char
  tw0 : List Char
  tw1 : List Char
  iw0 : List Char
  iw1 : List Char
  iw2 : List Char
  cw0 : List Char
  cw1 : List Char
  cw2 : List Char
  ew0 : List Char
  ew1 : List Char
  ew2 : List Char

/-- The tail of a dotted number rendering: `.g` for each further group. -/
def renderNumTail : List (List Char) → List Char
  | [] => []
  | g :: gs => '.' :: (g ++ renderNumTail gs)

/-- Dotted rendering of digit groups (`1.2.3`). -/
def renderNum : List (List Char) → List Char
  | [] => []
  | g :: gs => g ++ renderNumTail gs

/-- `keyword payload ;` clause rendering, continuation style. -/
def renderKVc (w0 key w1 payload w2 rest : List Char) : List Char :=
  w0 ++ (key ++ (w1 ++ (payload ++ (w2 ++ (';' :: rest)))))

/-- Repeated elements, each preceded by its own (nonempty) whitespace slot. -/
def renderToks {τ : Type} (tokRender : τ → List Char) :
    List (List Char) → List τ → List Char
  | w :: ws, tok :: ts => w ++ (tokRender tok ++ renderToks tokRender ws ts)
  | _, _ => []

/-- `keyword elem* ;` clause rendering, continuation style. -/
def renderListC (w0 key body wz rest : List Char) : List Char :=
  w0 ++ (key ++ (body ++ (wz ++ (';' :: rest))))

/-- Rendering of one symbols/locks pair: no whitespace around the `:`. -/
def renderPair (p : List Char × List (List Char)) : List Char :=
  p.1 ++ ':' :: renderNum p.2

/-- An `@`-delimited string payload followed by `w2 ;` and the rest. -/
def renderStrKVc (w0 key w1 s w2 rest : List Char) : List Char :=
  w0 ++ (key ++ (w1 ++ ('@' :: (s ++ ('@' :: (w2 ++ (';' :: rest)))))))

/-- The rendered optional `expand` clause (empty when absent), prepended to
a continuation. -/
def expandPiece (t : AdminTokens) (l : AdminLayout) (rest : List Char) : List Char :=
  match t.expandS with
  | none => rest
  | some s => renderStrKVc l.ew0 "expand".toList l.ew1 s l.ew2 rest

/-- The rendered optional `comment` clause. -/
def commentPiece (t : AdminTokens) (l : AdminLayout) (rest : List Char) : List Char :=
  match t.commentS with
  | none => rest
  | some s => renderStrKVc l.cw0 "comment".toList l.cw1 s l.cw2 rest

/-- The rendered optional `integrity` clause. -/
def integrityPiece (t : AdminTokens) (l : AdminLayout) (rest : List Char) : List Char :=
  match t.integrityS with
  | none => rest
  | some s => renderStrKVc l.iw0 "integrity".toList l.iw1 s l.iw2 rest

/-- The rendered optional bare `strict ;` clause. -/
def strictPiece (t : AdminTokens) (l : AdminLayout) (rest : List Char) : List Char :=
  if t.strictF then l.tw0 ++ ("strict".toList ++ (l.tw1 ++ (';' :: rest))) else rest

/-- The rendered optional `branch` clause. -/
def branchPiece (t : AdminTokens) (l : AdminLayout) (rest : List Char) : List Char :=
  match t.branchN with
  | none => rest
  | some gs => renderKVc l.bw0 "branch".toList l.bw1 (renderNum gs) l.bw2 rest

/-- Rendered input from the `integrity` clause on. -/
def tailOpts (t : AdminTokens) (l : AdminLayout) : List Char :=
  integrityPiece t l (commentPiece t l (expandPiece t l []))

/-- Rendered input from the `strict` clause on. -/
def tailStrict (t : AdminTokens) (l : AdminLayout) : List Char :=
  strictPiece t l (tailOpts t l)

/-- Rendered input from the `locks` clause on. -/
def tailLocks (t : AdminTokens) (l : AdminLayout) : List Char :=
  renderListC l.lw0 "locks".toList (renderToks renderPair l.lwE t.locksP) l.lwZ
    (tailStrict t l)

/-- Rendered input from the `symbols` clause on. -/
def tailSymbols (t : AdminTokens) (l : AdminLayout) : List Char :=
  renderListC l.sw0 "symbols".toList (renderToks renderPair l.swE t.symbolsP) l.swZ
    (tailLocks t l)

/-- Rendered input from the `access` clause on. -/
def tailAccess (t : AdminTokens) (l : AdminLayout) : List Char :=
  renderListC l.aw0 "access".toList (renderToks (fun i => i) l.awE t.accessI) l.awZ
    (tailSymbols t l)

/-- Rendered input from the `branch` clause on. -/
def tailBranch (t : AdminTokens) (l : AdminLayout) : List Char :=
  branchPiece t l (tailAccess t l)

/-- Rendering of a whole admin block from tokens and a whitespace layout. -/
def renderAdmin (t : AdminTokens) (l : AdminLayout) : List Char :=
  renderKVc l.hw0 "head".toList l.hw1 (renderNum t.headN) l.hw2 (tailBranch t l)

/-- All characters are whitespace. -/
def wsOk (w : List Char) : Bool := w.all isWs

/-- A digit group acceptable to the `u32` conversion. -/
def groupOk (g : List Char) : Bool :=
  !g.isEmpty && g.all isDigitC && decide (natOfDigits g < 2 ^ 32)

/-- A nonempty dotted number, all groups in `u32` range. -/
def groupsOk (gs : List (List Char)) : Bool := !gs.isEmpty && gs.all groupOk

/-- A nonempty identifier (idchars and periods). -/
def idOk (i : List Char) : Bool :=
  !i.isEmpty && i.all (fun c => is_idchar c || c = '.')

/-- A nonempty symbol (idchars only). -/
def symOk (s : List Char) : Bool := !s.isEmpty && s.all is_idchar

/-- String content without `@` (so rendering needs no escaping). -/
def strOk (s : List Char) : Bool := s.all (fun c => !(c = '@'))

/-- Well-formed tokens: the contents the grammar accepts. -/
def wfTokens (t : AdminTokens) : Bool :=
  groupsOk t.headN
  && (match t.branchN with | none => true | some gs => groupsOk gs)
  && t.accessI.all idOk
  && t.symbolsP.all (fun p => symOk p.1 && groupsOk p.2)
  && t.locksP.all (fun p => idOk p.1 && groupsOk p.2)
  && (match t.integrityS with | none => true | some s => strOk s)
  && (match t.commentS with | none => true | some s => strOk s)
  && (match t.expandS with | none => true | some s => strOk s)

/-- A pre-element whitespace slot: nonempty and all whitespace. -/
def elemWsOk (w : List Char) : Bool := !w.isEmpty && wsOk w

/-- Well-formed layout for given tokens: every slot is whitespace, element
slots are nonempty, and there is one slot per element. -/
def wfLayout (t : AdminTokens) (l : AdminLayout) : Bool :=
  wsOk l.hw0 && wsOk l.hw1 && wsOk l.hw2
  && wsOk l.bw0 && wsOk l.bw1 && wsOk l.bw2
  && wsOk l.aw0 && (l.awE.length == t.accessI.length) && l.awE.all elemWsOk && wsOk l.awZ
  && wsOk l.sw0 && (l.swE.length == t.symbolsP.length) && l.swE.all elemWsOk && wsOk l.swZ
  && wsOk l.lw0 && (l.lwE.length == t.locksP.length) && l.lwE.all elemWsOk && wsOk l.lwZ
  && wsOk l.tw0 && wsOk l.tw1
  && wsOk l.iw0 && wsOk l.iw1 && wsOk l.iw2
  && wsOk l.cw0 && wsOk l.cw1 && wsOk l.cw2
  && wsOk l.ew0 && wsOk l.ew1 && wsOk l.ew2

/-- The number denoted by digit groups. -/
def numOfGroups (gs : List (List Char)) : Num := ⟨gs.map natOfDigits⟩

/-- The document an admin block with these tokens parses to. -/
def rcsOfTokens (t : AdminTokens) : RcsData :=
  { head := numOfGroups t.headN,
    branch := t.branchN.map numOfGroups,
    access := t.accessI,
    symbols := t.symbolsP.map (fun p => (p.1, numOfGroups p.2)),
    locks := t.locksP.map (fun p => (p.1, numOfGroups p.2)),
    strict := t.strictF,
    integrity := t.integrityS,
    comment := t.commentS,
    expand := t.expandS,
    desc := [],
    deltas := [] }

/-- Concrete admin tokens used to exercise the whitespace-layout theorem. -/
def wsTokensA : AdminTokens :=
  { headN := [['2'], ['1']], branchN := some [['1'], ['3']],
    accessI := [['u', 's', 'r']],
    symbolsP := [(['a'], [['1'], ['1']])],
    locksP := [(['u'], [['1'], ['1']])],
    strictF := true, integrityS := some ['i'], commentS := some ['#'],
    expandS := none }

/-- A compact whitespace layout (single spaces). -/
def wsLayoutA : AdminLayout :=
  { hw0 := [], hw1 := [' '], hw2 := [], bw0 := [' '], bw1 := [' '], bw2 := [],
    aw0 := [' '], awE := [[' ']], awZ := [], sw0 := [' '], swE := [[' ']], swZ := [],
    lw0 := [' '], lwE := [[' ']], lwZ := [], tw0 := [' '], tw1 := [],
    iw0 := [' '], iw1 := [' '], iw2 := [], cw0 := [' '], cw1 := [' '], cw2 := [],
    ew0 := [], ew1 := [], ew2 := [] }

/-- A sprawling whitespace layout (newlines and tabs). -/
def wsLayoutB : AdminLayout :=
  { hw0 := ['\n'], hw1 := ['\t', '\n'], hw2 := [' '], bw0 := ['\n', '\n'],
    bw1 := [' '], bw2 := [' '],
    aw0 := ['\t'], awE := [['\n', '\t']], awZ := [' '], sw0 := ['\n'],
    swE := [[' ', ' ']], swZ := ['\n'],
    lw0 := [' '], lwE := [['\t', '\t']], lwZ := [' '], tw0 := ['\n'], tw1 := [' '],
    iw0 := ['\t'], iw1 := ['\n'], iw2 := [' '], cw0 := [' '], cw1 := [' ', '\n'],
    cw2 := [],
    ew0 := [' '], ew1 := [], ew2 := [] }

end Rcs



namespace Rcs

theorem branchLoop_eq (numbers : List Nat) :
    ∀ fuel k, numbers.length ≤ fuel + 2 * k + 2 →
      branchLoop numbers fuel (2 * k + 2)
        = (List.range ((numbers.length - 1) / 2 - k)).map
            (fun j => (⟨numbers.take (2 * (j + k) + 2)⟩ : Num)) := by
  intro fuel
  induction fuel with
  | zero =>
      intro k hk
      have h0 : (numbers.length - 1) / 2 - k = 0 := by omega
      simp [branchLoop, h0]
  | succ fuel ih =>
      intro k hk
      by_cases h : 2 * k + 2 < numbers.length
      · have h2 : (numbers.length - 1) / 2 - k = ((numbers.length - 1) / 2 - (k + 1)) + 1 := by
          omega
        have h3 : 2 * k + 2 + 2 = 2 * (k + 1) + 2 := by ring
        rw [branchLoop, if_pos h, h2, List.range_succ_eq_map, h3,
          ih (k + 1) (by omega)]
        simp only [List.map_cons, List.map_map]
        congr 1
        · have he : 2 * (0 + k) + 2 = 2 * k + 2 := by omega
          rw [he]
        · apply List.map_congr_left
          intro j _
          simp only [Function.comp_apply]
          have he : 2 * (j + (k + 1)) + 2 = 2 * (j + 1 + k) + 2 := by omega
          rw [he]
      · have h0 : (numbers.length - 1) / 2 - k = 0 := by omega
        rw [branchLoop, if_neg h, h0]
        simp

/-- C8: for every `Num`, `get_branching_points` returns exactly the even-length
proper initial segments (lengths 2, 4, 6, … strictly below the full length),
shortest first; in particular `[1,2,3,4,5,6,7,8]` yields
`[[1,2],[1,2,3,4],[1,2,3,4,5,6]]`. -/
theorem get_branching_points_spec :
    (∀ nu : Num, nu.get_branching_points
        = (List.range ((nu.numbers.length - 1) / 2)).map
            (fun j => (⟨nu.numbers.take (2 * j + 2)⟩ : Num)))
    ∧ Num.get_branching_points ⟨[1, 2, 3, 4, 5, 6, 7, 8]⟩
        = [⟨[1, 2]⟩, ⟨[1, 2, 3, 4]⟩, ⟨[1, 2, 3, 4, 5, 6]⟩] := by
  constructor
  · intro nu
    have h := branchLoop_eq nu.numbers (nu.numbers.length + 1) 0 (by omega)
    simpa [Num.get_branching_points] using h
  · decide

theorem takeWhile1P_ok {p : Char → Bool} {k : ErrKind} {input r v : List Char}
    (h : takeWhile1P p k input = .ok r v) : r = input.dropWhile p := by
  cases input with
  | nil => simp [takeWhile1P] at h
  | cons c rest =>
      by_cases hc : p c
      · simp only [takeWhile1P, if_pos hc, PRes.ok.injEq] at h
        exact h.1.symm
      · simp [takeWhile1P, hc] at h

theorem numLoop_ok :
    ∀ fuel acc input rest ns, numLoop fuel acc input = .ok rest ns →
      rest <:+ input ∧ acc.length ≤ ns.length := by
  intro fuel
  induction fuel with
  | zero => intro acc input rest ns h; simp [numLoop] at h
  | succ fuel ih =>
      intro acc input rest ns h
      cases input with
      | nil =>
          simp only [numLoop, PRes.ok.injEq] at h
          refine ⟨by simp [← h.1], ?_⟩
          rw [← h.2]
          simp
      | cons c r =>
          simp only [numLoop] at h
          by_cases hc : c = '.'
          · rw [if_pos hc] at h
            by_cases hds : (r.takeWhile isDigitC).isEmpty
            · rw [if_pos hds] at h
              simp only [PRes.ok.injEq] at h
              refine ⟨by simp [← h.1], ?_⟩
              rw [← h.2]; simp
            · rw [if_neg hds] at h
              by_cases hlt : natOfDigits (r.takeWhile isDigitC) < 2 ^ 32
              · rw [if_pos hlt] at h
                obtain ⟨h1, h2⟩ := ih _ _ _ _ h
                refine ⟨h1.trans ((List.dropWhile_suffix _).trans (List.suffix_cons c r)), ?_⟩
                simp at h2
                omega
              · rw [if_neg hlt] at h; simp at h
          · rw [if_neg hc] at h
            simp only [PRes.ok.injEq] at h
            refine ⟨by simp [← h.1], ?_⟩
            rw [← h.2]; simp

/-- C9: every `Num` produced by a successful `parse_num` run is nonempty, and
the leftover input is a genuine suffix of the input (returned unconsumed);
concretely no trailing `.` is consumed (`"1."` leaves `"."`) and
`"1.2.4abc"` leaves `"abc"`. -/
theorem parse_num_nonempty :
    (∀ input rest n, parse_num input = .ok rest n →
        n.numbers ≠ [] ∧ rest <:+ input)
    ∧ parse_num "1.".toList = .ok ".".toList ⟨[1]⟩
    ∧ parse_num "1.2.4abc".toList = .ok "abc".toList ⟨[1, 2, 4]⟩ := by
  refine ⟨?_, by decide, by decide⟩
  intro input rest n h
  unfold parse_num at h
  split at h
  case h_1 r0 ds heq =>
    split at h
    case isTrue hlt =>
      split at h
      case h_1 rest' ns heq2 =>
        simp only [PRes.ok.injEq] at h
        obtain ⟨hr, hn⟩ := h
        obtain ⟨hs, hl⟩ := numLoop_ok _ _ _ _ _ heq2
        have hr0 : r0 = input.dropWhile isDigitC := takeWhile1P_ok heq
        constructor
        · rw [← hn]
          simp only [ne_eq]
          intro hcon
          rw [hcon] at hl
          simp at hl
        · rw [← hr]
          exact hs.trans (hr0 ▸ List.dropWhile_suffix isDigitC)
      case h_2 => simp at h
      case h_3 => simp at h
    case isFalse => simp at h
  case h_2 => simp at h
  case h_3 => simp at h

theorem parse_num_nonempty_witness :
    (⟨[1, 2]⟩ : Num).numbers ≠ [] ∧ ([] : List Char) <:+ "1.2".toList := by
  exact parse_num_nonempty.1 "1.2".toList [] ⟨[1, 2]⟩ (by decide)

/-- C1: on a header list and text list where a `DeltaText` revision number
(here `1.1`) has no matching `Delta` header, `build_deltas` does not produce
a merged map at all: the `get_mut(..).unwrap()` on the failed lookup is a
panic (modelled by `none`), not a reported merge error. -/
theorem build_deltas_unmatched_panics :
    build_deltas [] [⟨⟨[1, 1]⟩, [], .Diff []⟩] = none := by decide

/-- C2: `parse_rcs` is not total: a revision digit group that exceeds the
`u32` range makes `u32::from_str_radix(..).unwrap()` panic inside the head
clause, and a well-formed document whose delta text `1.1` has no delta
header panics in the merge step. Both runs are the modelled panic, not a
structured error. -/
theorem parse_rcs_panics :
    parse_rcs "head 4294967296;".toList = .panic
    ∧ parse_rcs ("head 1.1;\naccess;\nsymbols;\nlocks;\ndesc\n@d@\n1.1\nlog\n@l@\ntext\n@t@\n").toList
      = .panic := by
  constructor
  · decide
  · decide

theorem listCmp_lt_iff : ∀ as bs : List Nat, listCmp as bs = .lt ↔ as < bs := by
  intro as
  induction as with
  | nil =>
      intro bs
      cases bs with
      | nil =>
          simp only [listCmp]
          constructor
          · intro h; exact absurd h (by decide)
          · intro h; exact absurd h (List.Lex.not_nil_right _ _)
      | cons b bs =>
          simp only [listCmp]
          constructor
          · intro _; exact List.nil_lt_cons b bs
          · intro _; trivial
  | cons a as ih =>
      intro bs
      cases bs with
      | nil =>
          simp only [listCmp]
          constructor
          · intro h; exact absurd h (by decide)
          · intro h; exact absurd h (List.Lex.not_nil_right _ _)
      | cons b bs =>
          simp only [listCmp]
          by_cases h1 : a < b
          · simp only [if_pos h1]
            constructor
            · intro _; exact List.Lex.rel h1
            · intro _; trivial
          · by_cases h2 : b < a
            · simp only [if_neg h1, if_pos h2]
              constructor
              · intro h; exact absurd h (by decide)
              · intro hlex
                cases hlex with
                | cons hl => exact absurd h2 (lt_irrefl a)
                | rel hr => exact absurd hr h1
            · have hab : a = b := le_antisymm (not_lt.mp h2) (not_lt.mp h1)
              subst hab
              simp only [if_neg h1, if_neg h2]
              constructor
              · intro h; exact List.Lex.cons ((ih bs).mp h)
              · intro h
                cases h with
                | cons hl => exact (ih bs).mpr hl
                | rel hr => exact absurd hr h1

theorem listCmp_eq_iff : ∀ as bs : List Nat, listCmp as bs = .eq ↔ as = bs := by
  intro as
  induction as with
  | nil =>
      intro bs
      cases bs with
      | nil => simp [listCmp]
      | cons b bs => simp [listCmp]
  | cons a as ih =>
      intro bs
      cases bs with
      | nil => simp [listCmp]
      | cons b bs =>
          simp only [listCmp]
          by_cases h1 : a < b
          · simp [if_pos h1]
            intro he
            omega
          · by_cases h2 : b < a
            · simp [if_neg h1, if_pos h2]
              intro he
              omega
            · have hab : a = b := le_antisymm (not_lt.mp h2) (not_lt.mp h1)
              subst hab
              simp [if_neg h1, if_neg h2, ih bs]

theorem listCmp_gt_iff : ∀ as bs : List Nat, listCmp as bs = .gt ↔ bs < as := by
  intro as bs
  rcases lt_trichotomy as bs with h | h | h
  · have hc := (listCmp_lt_iff as bs).mpr h
    rw [hc]
    constructor
    · intro hcon; exact absurd hcon (by decide)
    · intro hba; exact absurd hba (lt_asymm h)
  · subst h
    have hc := (listCmp_eq_iff as as).mpr rfl
    rw [hc]
    constructor
    · intro hcon; exact absurd hcon (by decide)
    · intro hba; exact absurd hba (lt_irrefl as)
  · constructor
    · intro _; exact h
    · intro _
      have hne : ¬listCmp as bs = .lt := fun hc => lt_asymm h ((listCmp_lt_iff as bs).mp hc)
      have hne2 : ¬listCmp as bs = .eq := fun hc => by
        rw [(listCmp_eq_iff as bs).mp hc] at h
        exact lt_irrefl bs h
      cases hc : listCmp as bs with
      | lt => exact absurd hc hne
      | eq => exact absurd hc hne2
      | gt => rfl

theorem lexSpecL_iff : ∀ as bs : List Nat, lexSpecL as bs ↔ as < bs := by
  intro as
  induction as with
  | nil =>
      intro bs
      cases bs with
      | nil =>
          constructor
          · rintro (⟨k, x, y, ht, hx, hy, hxy⟩ | ⟨hlen, hpre_⟩)
            · simp at hx
            · simp at hlen
          · intro h; exact absurd h (List.Lex.not_nil_right _ _)
      | cons b bs =>
          constructor
          · intro _; exact List.nil_lt_cons b bs
          · intro _; exact Or.inr ⟨by simp, by simp⟩
  | cons a as ih =>
      intro bs
      cases bs with
      | nil =>
          constructor
          · rintro (⟨k, x, y, ht, hx, hy, hxy⟩ | ⟨hlen, hpre_⟩)
            · simp at hy
            · simp at hlen
          · intro h; exact absurd h (List.Lex.not_nil_right _ _)
      | cons b bs =>
          constructor
          · rintro (⟨k, x, y, ht, hx, hy, hxy⟩ | ⟨hlen, hpre_⟩)
            · cases k with
              | zero =>
                  simp only [List.get?_cons_zero, Option.some.injEq] at hx hy
                  subst hx; subst hy
                  exact List.Lex.rel hxy
              | succ k =>
                  simp only [List.take_succ_cons] at ht
                  injection ht with hab ht'
                  subst hab
                  apply List.Lex.cons
                  exact (ih bs).mp (Or.inl ⟨k, x, y, ht', by simpa using hx, by simpa using hy, hxy⟩)
            · simp only [List.length_cons, List.take_succ_cons] at hlen hpre_
              injection hpre_ with hab hpre2
              subst hab
              apply List.Lex.cons
              exact (ih bs).mp (Or.inr ⟨by omega, hpre2⟩)
          · intro h
            cases h with
            | rel hr => exact Or.inl ⟨0, a, b, by simp, by simp, by simp, hr⟩
            | cons h' =>
                rcases (ih bs).mpr h' with ⟨k, x, y, ht, hx, hy, hxy⟩ | ⟨hlen, hpre_⟩
                · exact Or.inl ⟨k + 1, x, y, by simp [List.take_succ_cons, ht],
                    by simpa using hx, by simpa using hy, hxy⟩
                · refine Or.inr ⟨by simp [hlen], ?_⟩
                  simp only [List.length_cons, List.take_succ_cons]
                  rw [← hpre_]

theorem btInsert_mem :
    ∀ (t : List (Num × Delta)) (k : Num) (v : Delta) (x : Num × Delta),
      x ∈ btInsert k v t → x = (k, v) ∨ x ∈ t := by
  intro t
  induction t with
  | nil =>
      intro k v x hx
      simp [btInsert] at hx
      left; exact hx
  | cons p t ih =>
      intro k v x hx
      obtain ⟨k', v'⟩ := p
      simp only [btInsert] at hx
      split at hx
      · rcases List.mem_cons.mp hx with h | h
        · left; exact h
        · right; exact h
      · rcases List.mem_cons.mp hx with h | h
        · left; exact h
        · right; exact List.mem_cons_of_mem _ h
      · rcases List.mem_cons.mp hx with h | h
        · right; exact List.mem_cons.mpr (Or.inl h)
        · rcases ih k v x h with h2 | h2
          · left; exact h2
          · right; exact List.mem_cons_of_mem _ h2

theorem btInsert_pairwise :
    ∀ (t : List (Num × Delta)) (k : Num) (v : Delta),
      t.Pairwise (fun p q => p.1.numbers < q.1.numbers) →
      (btInsert k v t).Pairwise (fun p q => p.1.numbers < q.1.numbers) := by
  intro t
  induction t with
  | nil => intro k v _; simp [btInsert]
  | cons p t ih =>
      intro k v hp
      obtain ⟨k', v'⟩ := p
      rw [List.pairwise_cons] at hp
      simp only [btInsert]
      split
      case h_1 hcmp =>
        have hk : k.numbers < k'.numbers := (listCmp_lt_iff _ _).mp hcmp
        rw [List.pairwise_cons]
        constructor
        · intro q hq
          rcases List.mem_cons.mp hq with h | h
          · rw [h]; exact hk
          · exact hk.trans (hp.1 q h)
        · rw [List.pairwise_cons]
          exact hp
      case h_2 hcmp =>
        have hk : k.numbers = k'.numbers := (listCmp_eq_iff _ _).mp hcmp
        rw [List.pairwise_cons]
        exact ⟨fun q hq => hk ▸ hp.1 q hq, hp.2⟩
      case h_3 hcmp =>
        have hk : k'.numbers < k.numbers := (listCmp_gt_iff _ _).mp hcmp
        rw [List.pairwise_cons]
        constructor
        · intro q hq
          rcases btInsert_mem t k v q hq with h | h
          · rw [h]; exact hk
          · exact hp.1 q h
        · exact ih k v hp.2

theorem buildTree_pairwise :
    ∀ (ds : List Delta) (tree : List (Num × Delta)),
      tree.Pairwise (fun p q => p.1.numbers < q.1.numbers) →
      (ds.foldl (fun tr d => btInsert d.num d tr) tree).Pairwise
        (fun p q => p.1.numbers < q.1.numbers) := by
  intro ds
  induction ds with
  | nil => intro tree hp; exact hp
  | cons d ds ih =>
      intro tree hp
      exact ih _ (btInsert_pairwise tree d.num d hp)

theorem buildLoop_pairwise :
    ∀ (ts : List DeltaText) (tree r : List (Num × Delta)),
      tree.Pairwise (fun p q => p.1.numbers < q.1.numbers) →
      buildLoop ts tree = some r →
      r.Pairwise (fun p q => p.1.numbers < q.1.numbers) := by
  intro ts
  induction ts with
  | nil =>
      intro tree r hp h
      simp only [buildLoop, Option.some.injEq] at h
      rw [← h]
      exact hp
  | cons t ts ih =>
      intro tree r hp h
      simp only [buildLoop] at h
      split at h
      · refine ih _ _ ?_ h
        apply hp.map
        intro a b hab
        have hfst : ∀ p : Num × Delta,
            ((if listCmp p.1.numbers t.num.numbers = .eq then
                (p.1, { p.2 with log := t.log, text := t.text }) else p)).1 = p.1 := by
          intro p
          split
          · rfl
          · rfl
        show (_ : Num × Delta).1.numbers < (_ : Num × Delta).1.numbers
        rw [hfst a, hfst b]
        exact hab
      · exact absurd h (by simp)

/-- C3: the derived total order on `Num` (the key order of the assembled
`deltas` map) is element-by-element numeric comparison with a strict front
part ordering strictly smaller — so numerically `[2] < [10]` even though the
rendered strings compare the other way — and every successfully merged
`deltas` map is strictly sorted by that order. -/
theorem numLt_spec :
    (∀ a b : Num, numLt a b = true ↔ numLtSpec a b)
    ∧ numLt ⟨[2]⟩ ⟨[10]⟩ = true
    ∧ (∀ ds ts r, build_deltas ds ts = some r →
        r.Pairwise (fun p q => numLt p.1 q.1 = true)) := by
  refine ⟨?_, by decide, ?_⟩
  · intro a b
    unfold numLt numLtSpec
    rw [decide_eq_true_iff, listCmp_lt_iff, lexSpecL_iff]
  · intro ds ts r h
    unfold build_deltas at h
    have hp := buildLoop_pairwise ts _ r (buildTree_pairwise ds [] (by simp)) h
    apply hp.imp
    intro p q hpq
    unfold numLt
    rw [decide_eq_true_iff, listCmp_lt_iff]
    exact hpq

theorem numLt_spec_witness :
    ([(⟨[1, 2]⟩, mkDelta ⟨[1, 2]⟩), (⟨[2, 1]⟩, mkDelta ⟨[2, 1]⟩)] :
      List (Num × Delta)).Pairwise (fun p q => numLt p.1 q.1 = true) := by
  apply numLt_spec.2.2 [mkDelta ⟨[2, 1]⟩, mkDelta ⟨[1, 2]⟩] []
  decide

theorem headNot_cons (p : Char → Bool) (c : Char) (xs : List Char) :
    headNot p (c :: xs) = !p c := rfl

theorem dropWhile_all_append (p : Char → Bool) :
    ∀ (tok r : List Char), tok.all p = true → headNot p r = true →
      (tok ++ r).dropWhile p = r := by
  intro tok
  induction tok with
  | nil =>
      intro r _ h2
      cases r with
      | nil => rfl
      | cons c rs =>
          rw [headNot_cons] at h2
          simp only [Bool.not_eq_true'] at h2
          simp [List.dropWhile_cons, h2]
  | cons c cs ih =>
      intro r h1 h2
      simp only [List.all_cons, Bool.and_eq_true] at h1
      simp only [List.cons_append, List.dropWhile_cons, h1.1]
      exact ih r h1.2 h2

theorem takeWhile_all_append (p : Char → Bool) :
    ∀ (tok r : List Char), tok.all p = true → headNot p r = true →
      (tok ++ r).takeWhile p = tok := by
  intro tok
  induction tok with
  | nil =>
      intro r _ h2
      cases r with
      | nil => rfl
      | cons c rs =>
          rw [headNot_cons] at h2
          simp only [Bool.not_eq_true'] at h2
          simp [List.takeWhile_cons, h2]
  | cons c cs ih =>
      intro r h1 h2
      simp only [List.all_cons, Bool.and_eq_true] at h1
      simp only [List.cons_append, List.takeWhile_cons, h1.1]
      simp [ih r h1.2 h2]

theorem ms0_append (w r : List Char) (hw : wsOk w = true) : ms0 (w ++ r) = ms0 r := by
  induction w with
  | nil => rfl
  | cons c cs ih =>
      simp only [wsOk, List.all_cons, Bool.and_eq_true] at hw
      simp only [ms0, List.cons_append, List.dropWhile_cons, hw.1]
      exact ih hw.2

theorem ms0_id (r : List Char) (h : headNot isWs r = true) : ms0 r = r := by
  cases r with
  | nil => rfl
  | cons c rs =>
      rw [headNot_cons] at h
      simp only [Bool.not_eq_true'] at h
      simp [ms0, List.dropWhile_cons, h]

theorem tagP_append : ∀ (s r : List Char), tagP s (s ++ r) = some r := by
  intro s
  induction s with
  | nil => intro r; rfl
  | cons c cs ih => intro r; simp [tagP, ih r]

theorem tagP_head_ne (c d : Char) (cs ds : List Char) (h : ¬c = d) :
    tagP (c :: cs) (d :: ds) = none := by
  simp [tagP, h]

theorem tagP_cons_nil (c : Char) (cs : List Char) : tagP (c :: cs) [] = none := rfl

theorem ws_char_facts (c : Char) (h : isWs c = true) :
    isDigitC c = false ∧ ¬c = '.' ∧ is_idchar c = false ∧ ¬c = '@' ∧ ¬c = ';'
    ∧ ¬c = ':' := by
  simp only [isWs, Bool.or_eq_true, decide_eq_true_eq] at h
  rcases h with ((h | h) | h) | h <;> subst h <;>
    exact ⟨by decide, by decide, by decide, by decide, by decide, by decide⟩

theorem takeWhile1P_render (p : Char → Bool) (k : ErrKind) (tok r : List Char)
    (h1 : tok.all p = true) (h2 : ¬tok = []) (h3 : headNot p r = true) :
    takeWhile1P p k (tok ++ r) = .ok r tok := by
  cases tok with
  | nil => exact absurd rfl h2
  | cons c cs =>
      have hdrop : ((c :: cs) ++ r).dropWhile p = r :=
        dropWhile_all_append p (c :: cs) r h1 h3
      have htake : ((c :: cs) ++ r).takeWhile p = c :: cs :=
        takeWhile_all_append p (c :: cs) r h1 h3
      simp only [List.all_cons, Bool.and_eq_true] at h1
      simp only [List.cons_append] at hdrop htake
      simp [takeWhile1P, h1.1, hdrop, htake]

theorem headNot_digit_rnt (gs : List (List Char)) (r : List Char)
    (hr : headNot (fun c => isDigitC c || c = '.') r = true) :
    headNot isDigitC (renderNumTail gs ++ r) = true := by
  cases gs with
  | nil =>
      simp only [renderNumTail, List.nil_append]
      cases r with
      | nil => rfl
      | cons c rs =>
          rw [headNot_cons] at hr ⊢
          simp only [Bool.not_eq_true', Bool.or_eq_false_iff] at hr
          simp [hr.1]
  | cons g gs =>
      rw [renderNumTail, List.cons_append, headNot_cons]
      decide

theorem numLoop_render :
    ∀ (gs : List (List Char)) (fuel : Nat) (acc : List Nat) (r : List Char),
      gs.all groupOk = true →
      headNot (fun c => isDigitC c || c = '.') r = true →
      (renderNumTail gs ++ r).length < fuel →
      numLoop fuel acc (renderNumTail gs ++ r)
        = .ok r (acc.reverse ++ gs.map natOfDigits) := by
  intro gs
  induction gs with
  | nil =>
      intro fuel acc r _ hr hf
      simp only [renderNumTail, List.nil_append, List.map_nil, List.append_nil] at *
      cases fuel with
      | zero => omega
      | succ f =>
          cases r with
          | nil => simp [numLoop]
          | cons c rs =>
              rw [headNot_cons] at hr
              simp only [Bool.not_eq_true', Bool.or_eq_false_iff,
                decide_eq_false_iff_not] at hr
              simp [numLoop, hr.2]
  | cons g gs ih =>
      intro fuel acc r hall hr hf
      simp only [List.all_cons, Bool.and_eq_true] at hall
      have hgOk := hall.1
      simp only [groupOk, Bool.and_eq_true, decide_eq_true_eq] at hgOk
      have hg1 : g.all isDigitC = true := hgOk.1.2
      have hg0 : ¬g = [] := by
        intro he
        subst he
        simp at hgOk
      cases fuel with
      | zero =>
          exfalso
          have : 0 < (renderNumTail (g :: gs) ++ r).length := by
            rw [renderNumTail]
            simp
          omega
      | succ f =>
          have hshape : renderNumTail (g :: gs) ++ r
              = '.' :: ((g ++ renderNumTail gs) ++ r) := by
            rw [renderNumTail]
            simp
          rw [hshape]
          have hbound : headNot isDigitC (renderNumTail gs ++ r) = true :=
            headNot_digit_rnt gs r hr
          have htake : ((g ++ renderNumTail gs) ++ r).takeWhile isDigitC = g := by
            rw [List.append_assoc]
            exact takeWhile_all_append isDigitC g _ hg1 hbound
          have hdrop : ((g ++ renderNumTail gs) ++ r).dropWhile isDigitC
              = renderNumTail gs ++ r := by
            rw [List.append_assoc]
            exact dropWhile_all_append isDigitC g _ hg1 hbound
          have hne : g.isEmpty = false := by
            cases g with
            | nil => exact absurd rfl hg0
            | cons a as => rfl
          simp only [numLoop, if_pos rfl, htake, hdrop, if_true]
          rw [if_neg (by simp [hne]), if_pos hgOk.2]
          rw [ih f (natOfDigits g :: acc) r hall.2 hr
            (by rw [hshape] at hf; simp at hf ⊢; omega)]
          simp

theorem parse_num_render (gs : List (List Char)) (r : List Char)
    (hgs : groupsOk gs = true)
    (hr : headNot (fun c => isDigitC c || c = '.') r = true) :
    parse_num (renderNum gs ++ r) = .ok r (numOfGroups gs) := by
  cases gs with
  | nil => simp [groupsOk] at hgs
  | cons g gs' =>
      simp only [groupsOk, Bool.and_eq_true, List.all_cons] at hgs
      have hgOk := hgs.2.1
      simp only [groupOk, Bool.and_eq_true, decide_eq_true_eq] at hgOk
      have hg0 : ¬g = [] := by
        intro he
        subst he
        simp at hgOk
      have hshape : renderNum (g :: gs') ++ r = g ++ (renderNumTail gs' ++ r) := by
        rw [renderNum]
        simp
      rw [hshape]
      have hbound : headNot isDigitC (renderNumTail gs' ++ r) = true :=
        headNot_digit_rnt gs' r hr
      unfold parse_num digit1P
      rw [takeWhile1P_render isDigitC .digit g _ hgOk.1.2 hg0 hbound]
      simp only [hgOk.2, if_true]
      rw [numLoop_render gs' _ [natOfDigits g] r hgs.2.2 hr (by omega)]
      simp [numOfGroups]

theorem stringBody_escape :
    ∀ s rest : List Char, rest.head? ≠ some '@' →
      stringBody (escapeAt s ++ '@' :: rest) = (s, '@' :: rest) := by
  intro s
  induction s with
  | nil =>
      intro rest h
      show stringBody ('@' :: rest) = ([], '@' :: rest)
      rw [stringBody.eq_def]
      cases rest with
      | nil => simp
      | cons c2 r2 =>
          have hc2 : ¬c2 = '@' := by
            intro he
            exact h (by simp [he])
          simp [hc2]
  | cons c s' ih =>
      intro rest h
      by_cases hc : c = '@'
      · subst hc
        have he : escapeAt ('@' :: s') ++ '@' :: rest
            = '@' :: '@' :: (escapeAt s' ++ '@' :: rest) := by
          simp [escapeAt]
        rw [he, stringBody.eq_def]
        simp [ih rest h]
      · have he : escapeAt (c :: s') ++ '@' :: rest
            = c :: (escapeAt s' ++ '@' :: rest) := by
          simp [escapeAt, hc]
        rw [he, stringBody.eq_def]
        simp [hc, ih rest h]

theorem headNot_append (p : Char → Bool) (key X : List Char) (h0 : ¬key = [])
    (h : headNot p key = true) : headNot p (key ++ X) = true := by
  cases key with
  | nil => exact absurd rfl h0
  | cons c cs => rw [List.cons_append, headNot_cons]; rw [headNot_cons] at h; exact h

theorem digit_not_ws (c : Char) (h : isDigitC c = true) : isWs c = false := by
  cases hw : isWs c with
  | false => rfl
  | true => exact absurd h (by rw [(ws_char_facts c hw).1]; decide)

theorem idchar_not_ws (c : Char) (h : is_idchar c = true) : isWs c = false := by
  cases hw : isWs c with
  | false => rfl
  | true => exact absurd h (by rw [(ws_char_facts c hw).2.2.1]; decide)

theorem headNot_ws_renderNum (gs : List (List Char)) (X : List Char)
    (hgs : groupsOk gs = true) : headNot isWs (renderNum gs ++ X) = true := by
  cases gs with
  | nil => simp [groupsOk] at hgs
  | cons g gs' =>
      simp only [groupsOk, List.all_cons, Bool.and_eq_true] at hgs
      have hgOk := hgs.2.1
      simp only [groupOk, Bool.and_eq_true] at hgOk
      cases g with
      | nil => simp at hgOk
      | cons c g' =>
          have hd : isDigitC c = true := by
            have := hgOk.1.2
            simp only [List.all_cons, Bool.and_eq_true] at this
            exact this.1
          rw [renderNum]
          rw [show ((c :: g') ++ renderNumTail gs') ++ X
            = c :: ((g' ++ renderNumTail gs') ++ X) from by simp]
          rw [headNot_cons, digit_not_ws c hd]
          rfl

theorem parse_id_render (i r : List Char) (hi : idOk i = true)
    (hr : headNot (fun c => is_idchar c || c = '.') r = true) :
    parse_id (i ++ r) = .ok r i := by
  simp only [idOk, Bool.and_eq_true] at hi
  have h0 : ¬i = [] := by
    intro he
    subst he
    simp at hi
  exact takeWhile1P_render _ _ i r hi.2 h0 hr

theorem parse_sym_render (s r : List Char) (hs : symOk s = true)
    (hr : headNot is_idchar r = true) :
    parse_sym (s ++ r) = .ok r s := by
  simp only [symOk, Bool.and_eq_true] at hs
  have h0 : ¬s = [] := by
    intro he
    subst he
    simp at hs
  exact takeWhile1P_render _ _ s r hs.2 h0 hr

theorem symPair_render (s : List Char) (gs : List (List Char)) (r : List Char)
    (hs : symOk s = true) (hgs : groupsOk gs = true)
    (hr : headNot (fun c => isDigitC c || c = '.') r = true) :
    pairPayload parse_sym (s ++ (':' :: (renderNum gs ++ r)))
      = .ok r (s, numOfGroups gs) := by
  unfold pairPayload
  rw [parse_sym_render s (':' :: (renderNum gs ++ r)) hs (by rw [headNot_cons]; decide)]
  have ht : tagP [':'] (':' :: (renderNum gs ++ r)) = some (renderNum gs ++ r) :=
    tagP_append [':'] (renderNum gs ++ r)
  simp [ht, parse_num_render gs r hgs hr]

theorem lockPair_render (i : List Char) (gs : List (List Char)) (r : List Char)
    (hi : idOk i = true) (hgs : groupsOk gs = true)
    (hr : headNot (fun c => isDigitC c || c = '.') r = true) :
    pairPayload parse_id (i ++ (':' :: (renderNum gs ++ r)))
      = .ok r (i, numOfGroups gs) := by
  unfold pairPayload
  rw [parse_id_render i (':' :: (renderNum gs ++ r)) hi (by rw [headNot_cons]; decide)]
  have ht : tagP [':'] (':' :: (renderNum gs ++ r)) = some (renderNum gs ++ r) :=
    tagP_append [':'] (renderNum gs ++ r)
  simp [ht, parse_num_render gs r hgs hr]

theorem escapeAt_no_at (s : List Char) (hs : strOk s = true) : escapeAt s = s := by
  induction s with
  | nil => rfl
  | cons c cs ih =>
      simp only [strOk, List.all_cons, Bool.and_eq_true] at hs
      have hc : ¬c = '@' := by
        intro he
        rw [he] at hs
        exact absurd hs.1 (by decide)
      show (if c = '@' then ['@', '@'] else [c]) ++ escapeAt cs = c :: cs
      rw [if_neg hc, ih hs.2]
      rfl

theorem parse_string_render (s r : List Char) (hs : strOk s = true)
    (hr : r.head? ≠ some '@') :
    parse_string ('@' :: (s ++ ('@' :: r))) = .ok r s := by
  have h1 := stringBody_escape s r hr
  rw [escapeAt_no_at s hs] at h1
  simp [parse_string, h1]

theorem parse_intstring_render (s r : List Char) (hs : strOk s = true) :
    parse_intstring ('@' :: (s ++ ('@' :: r))) = .ok r s := by
  have hany : (s ++ ('@' :: r)).any (fun c2 => c2 = '@') = true := by
    simp [List.any_append]
  have htake : (s ++ ('@' :: r)).takeWhile (fun c2 => !(c2 = '@')) = s :=
    takeWhile_all_append (fun c2 => !(c2 = '@')) s ('@' :: r) hs
      (by rw [headNot_cons]; decide)
  have hdrop : (s ++ ('@' :: r)).dropWhile (fun c2 => !(c2 = '@')) = '@' :: r :=
    dropWhile_all_append (fun c2 => !(c2 = '@')) s ('@' :: r) hs
      (by rw [headNot_cons]; decide)
  simp [parse_intstring, hany, htake, hdrop]

theorem parse_strict_present (w0 w1 rest : List Char)
    (hw0 : wsOk w0 = true) (hw1 : wsOk w1 = true) :
    parse_strict (w0 ++ ("strict".toList ++ (w1 ++ (';' :: rest)))) = .ok rest true := by
  have ht2 : tagP [';'] (';' :: rest) = some rest := tagP_append [';'] rest
  have e1 : ms0 (w0 ++ ("strict".toList ++ (w1 ++ (';' :: rest))))
      = "strict".toList ++ (w1 ++ (';' :: rest)) := by
    rw [ms0_append _ _ hw0]
    exact ms0_id _ (headNot_append isWs "strict".toList _ (by decide) (by decide))
  have e2 : ms0 (w1 ++ (';' :: rest)) = ';' :: rest := by
    rw [ms0_append _ _ hw1]
    exact ms0_id _ (by rw [headNot_cons]; decide)
  unfold parse_strict
  simp only [e1, tagP_append, e2, ht2]

theorem parse_strict_absent (input : List Char)
    (h : tagP "strict".toList (ms0 input) = none) :
    parse_strict input = .ok input false := by
  unfold parse_strict
  rw [h]

theorem parse_value_render {α : Type} (key : List Char) (f : List Char → PRes α)
    (w0 w1 w2 body rest : List Char) (v : α)
    (hw0 : wsOk w0 = true) (hw1 : wsOk w1 = true) (hw2 : wsOk w2 = true)
    (hk0 : ¬key = []) (hk : headNot isWs key = true)
    (hb : headNot isWs (body ++ (w2 ++ (';' :: rest))) = true)
    (hf : f (body ++ (w2 ++ (';' :: rest))) = .ok (w2 ++ (';' :: rest)) v) :
    parse_value key f (renderKVc w0 key w1 body w2 rest) = .ok rest v := by
  have ht2 : tagP [';'] (';' :: rest) = some rest := tagP_append [';'] rest
  have e1 : ms0 (w0 ++ (key ++ (w1 ++ (body ++ (w2 ++ (';' :: rest))))))
      = key ++ (w1 ++ (body ++ (w2 ++ (';' :: rest)))) := by
    rw [ms0_append _ _ hw0]
    exact ms0_id _ (headNot_append isWs key _ hk0 hk)
  have e2 : ms0 (w1 ++ (body ++ (w2 ++ (';' :: rest)))) = body ++ (w2 ++ (';' :: rest)) := by
    rw [ms0_append _ _ hw1]
    exact ms0_id _ hb
  have e3 : ms0 (w2 ++ (';' :: rest)) = ';' :: rest := by
    rw [ms0_append _ _ hw2]
    exact ms0_id _ (by rw [headNot_cons]; decide)
  unfold parse_value renderKVc
  simp only [e1, tagP_append, e2, hf, e3, ht2]

theorem parse_value_all_opt_render {α : Type} (key : List Char)
    (f : List Char → PRes α) (w0 w1 w2 body rest : List Char) (v : α)
    (hw0 : wsOk w0 = true) (hw1 : wsOk w1 = true) (hw2 : wsOk w2 = true)
    (hk0 : ¬key = []) (hk : headNot isWs key = true)
    (hb : headNot isWs (body ++ (w2 ++ (';' :: rest))) = true)
    (hf : f (body ++ (w2 ++ (';' :: rest))) = .ok (w2 ++ (';' :: rest)) v) :
    parse_value_all_opt key f (renderKVc w0 key w1 body w2 rest) = .ok rest (some v) := by
  have ht2 : tagP [';'] (';' :: rest) = some rest := tagP_append [';'] rest
  have e1 : ms0 (w0 ++ (key ++ (w1 ++ (body ++ (w2 ++ (';' :: rest))))))
      = key ++ (w1 ++ (body ++ (w2 ++ (';' :: rest)))) := by
    rw [ms0_append _ _ hw0]
    exact ms0_id _ (headNot_append isWs key _ hk0 hk)
  have e2 : ms0 (w1 ++ (body ++ (w2 ++ (';' :: rest)))) = body ++ (w2 ++ (';' :: rest)) := by
    rw [ms0_append _ _ hw1]
    exact ms0_id _ hb
  have e3 : ms0 (w2 ++ (';' :: rest)) = ';' :: rest := by
    rw [ms0_append _ _ hw2]
    exact ms0_id _ (by rw [headNot_cons]; decide)
  unfold parse_value_all_opt renderKVc
  simp only [e1, tagP_append, e2, hf, e3, ht2]

theorem parse_value_all_opt_none {α : Type} (key : List Char)
    (f : List Char → PRes α) (input : List Char)
    (h : tagP key (ms0 input) = none) :
    parse_value_all_opt key f input = .ok input none := by
  unfold parse_value_all_opt
  rw [h]

theorem all_opt_string_render (key : List Char) (s : List Char)
    (w0 w1 w2 rest : List Char)
    (hw0 : wsOk w0 = true) (hw1 : wsOk w1 = true) (hw2 : wsOk w2 = true)
    (hk0 : ¬key = []) (hk : headNot isWs key = true) (hs : strOk s = true)
    (hsemi : headNot (fun c => c = '@') (w2 ++ (';' :: rest)) = true) :
    parse_value_all_opt key parse_string (renderStrKVc w0 key w1 s w2 rest)
      = .ok rest (some s) := by
  have hshape : renderStrKVc w0 key w1 s w2 rest
      = renderKVc w0 key w1 ('@' :: (s ++ ['@'])) w2 rest := by
    unfold renderStrKVc renderKVc
    simp
  rw [hshape]
  apply parse_value_all_opt_render key parse_string w0 w1 w2 _ rest s hw0 hw1 hw2 hk0 hk
  · rw [List.cons_append, headNot_cons]
    decide
  · have hhead : (w2 ++ (';' :: rest)).head? ≠ some '@' := by
      cases w2 with
      | nil =>
          simp
      | cons c cs =>
          rw [List.cons_append, headNot_cons] at hsemi
          simp only [Bool.not_eq_true', decide_eq_false_iff_not] at hsemi
          simp [hsemi]
    have := parse_string_render s (w2 ++ (';' :: rest)) hs hhead
    rw [show ('@' :: (s ++ ['@'])) ++ (w2 ++ (';' :: rest))
      = '@' :: (s ++ ('@' :: (w2 ++ (';' :: rest)))) from by simp]
    exact this

theorem all_opt_intstring_render (key : List Char) (s : List Char)
    (w0 w1 w2 rest : List Char)
    (hw0 : wsOk w0 = true) (hw1 : wsOk w1 = true) (hw2 : wsOk w2 = true)
    (hk0 : ¬key = []) (hk : headNot isWs key = true) (hs : strOk s = true) :
    parse_value_all_opt key parse_intstring (renderStrKVc w0 key w1 s w2 rest)
      = .ok rest (some s) := by
  have hshape : renderStrKVc w0 key w1 s w2 rest
      = renderKVc w0 key w1 ('@' :: (s ++ ['@'])) w2 rest := by
    unfold renderStrKVc renderKVc
    simp
  rw [hshape]
  apply parse_value_all_opt_render key parse_intstring w0 w1 w2 _ rest s hw0 hw1 hw2 hk0 hk
  · rw [List.cons_append, headNot_cons]
    decide
  · have := parse_intstring_render s (w2 ++ (';' :: rest)) hs
    rw [show ('@' :: (s ++ ['@'])) ++ (w2 ++ (';' :: rest))
      = '@' :: (s ++ ('@' :: (w2 ++ (';' :: rest)))) from by simp]
    exact this

theorem ms1_append (w X : List Char) (hw : elemWsOk w = true)
    (hX : headNot isWs X = true) : ms1 (w ++ X) = .ok X () := by
  cases w with
  | nil => simp [elemWsOk] at hw
  | cons c w' =>
      simp only [elemWsOk, wsOk, List.all_cons, Bool.and_eq_true] at hw
      have hdrop : ((c :: w') ++ X).dropWhile isWs = X :=
        dropWhile_all_append isWs (c :: w') X
          (by simp [List.all_cons, hw.2.1, hw.2.2]) hX
      simp only [List.cons_append] at hdrop
      simp [ms1, hw.2.1, hdrop]

theorem wsOrSemi_headNots (r : List Char) (h : wsOrSemi r = true) :
    headNot (fun c => is_idchar c || c = '.') r = true
    ∧ headNot (fun c => isDigitC c || c = '.') r = true
    ∧ headNot is_idchar r = true := by
  cases r with
  | nil => simp [wsOrSemi] at h
  | cons c rs =>
      simp only [wsOrSemi, Bool.or_eq_true, decide_eq_true_eq] at h
      rcases h with h | h
      · obtain ⟨f1, f2, f3, _, _, _⟩ := ws_char_facts c h
        refine ⟨?_, ?_, ?_⟩ <;> rw [headNot_cons] <;> simp [f1, f2, f3]
      · subst h
        exact ⟨by rw [headNot_cons]; decide, by rw [headNot_cons]; decide,
          by rw [headNot_cons]; decide⟩

theorem headNot_digitDot_ws_semi (w X : List Char) (hw : wsOk w = true) :
    headNot (fun c => isDigitC c || c = '.') (w ++ (';' :: X)) = true := by
  cases w with
  | nil => rw [List.nil_append, headNot_cons]; decide
  | cons c w' =>
      simp only [wsOk, List.all_cons, Bool.and_eq_true] at hw
      obtain ⟨f1, f2, _, _, _, _⟩ := ws_char_facts c hw.1
      rw [List.cons_append, headNot_cons]
      simp [f1, f2]

theorem headNot_at_ws_semi (w X : List Char) (hw : wsOk w = true) :
    headNot (fun c => c = '@') (w ++ (';' :: X)) = true := by
  cases w with
  | nil => rw [List.nil_append, headNot_cons]; decide
  | cons c w' =>
      simp only [wsOk, List.all_cons, Bool.and_eq_true] at hw
      obtain ⟨_, _, _, f4, _, _⟩ := ws_char_facts c hw.1
      rw [List.cons_append, headNot_cons]
      simp [f4]

theorem wsOrSemi_render_tail {τ : Type} (tokRender : τ → List Char)
    (ws : List (List Char)) (toks : List τ) (wz rest : List Char)
    (hws : ∀ w ∈ ws, elemWsOk w = true) (hwz : wsOk wz = true) :
    wsOrSemi (renderToks tokRender ws toks ++ (wz ++ (';' :: rest))) = true := by
  have htail : wsOrSemi (wz ++ (';' :: rest)) = true := by
    cases wz with
    | nil => rw [List.nil_append]; simp [wsOrSemi]
    | cons c w' =>
        simp only [wsOk, List.all_cons, Bool.and_eq_true] at hwz
        rw [List.cons_append]
        simp [wsOrSemi, hwz.1]
  cases toks with
  | nil =>
      cases ws with
      | nil => simpa [renderToks] using htail
      | cons w ws' => simpa [renderToks] using htail
  | cons tok toks' =>
      cases ws with
      | nil => simpa [renderToks] using htail
      | cons w ws' =>
          have hw := hws w (List.mem_cons_self w ws')
          cases w with
          | nil => simp [elemWsOk] at hw
          | cons c w' =>
              simp only [elemWsOk, wsOk, List.all_cons, Bool.and_eq_true] at hw
              rw [renderToks]
              rw [show ((c :: w') ++ (tokRender tok ++ renderToks tokRender ws' toks'))
                  ++ (wz ++ (';' :: rest))
                = c :: ((w' ++ (tokRender tok ++ renderToks tokRender ws' toks'))
                  ++ (wz ++ (';' :: rest))) from by simp]
              simp [wsOrSemi, hw.2.1]

theorem many0F_elems {α τ : Type} (f : List Char → PRes α) (tokRender : τ → List Char)
    (tokVal : τ → α) :
    ∀ (toks : List τ) (ws : List (List Char)) (wz rest : List Char) (fuel : Nat),
      ws.length = toks.length →
      (∀ w ∈ ws, elemWsOk w = true) →
      wsOk wz = true →
      (∀ tok ∈ toks, ¬tokRender tok = [] ∧ headNot isWs (tokRender tok) = true) →
      (∀ tok r, tok ∈ toks → wsOrSemi r = true →
        f (tokRender tok ++ r) = .ok r (tokVal tok)) →
      (∀ r', ∃ p k, f (';' :: r') = .fail p k) →
      (renderToks tokRender ws toks ++ (wz ++ (';' :: rest))).length < fuel →
      many0F (fun s => match ms1 s with
        | .ok t _ => f t
        | .fail p k => .fail p k
        | .panic => .panic) fuel (renderToks tokRender ws toks ++ (wz ++ (';' :: rest)))
        = .ok (wz ++ (';' :: rest)) (toks.map tokVal) := by
  intro toks
  induction toks with
  | nil =>
      intro ws wz rest fuel hlen _ hwz _ _ hsemi hfuel
      have hws0 : ws = [] := by
        cases ws with
        | nil => rfl
        | cons w ws' => simp at hlen
      subst hws0
      simp only [renderToks, List.nil_append, List.map_nil] at *
      cases fuel with
      | zero => omega
      | succ fl =>
          cases hwzc : wz with
          | nil =>
              have hms : ms1 (';' :: rest) = .fail (';' :: rest) .takeWhile1 := by
                simp [ms1, isWs]
              subst hwzc
              simp only [many0F, List.nil_append, hms]
          | cons c w' =>
              subst hwzc
              have hms : ms1 ((c :: w') ++ (';' :: rest)) = .ok (';' :: rest) () :=
                ms1_append (c :: w') (';' :: rest)
                  (by simp only [elemWsOk]; simp [hwz])
                  (by rw [headNot_cons]; decide)
              obtain ⟨p, k, hfk⟩ := hsemi rest
              simp only [many0F, hms, hfk]
  | cons tok toks' ih =>
      intro ws wz rest fuel hlen hws hwz hne helem hsemi hfuel
      cases ws with
      | nil => simp at hlen
      | cons w ws' =>
          cases fuel with
          | zero => omega
          | succ fl =>
              have hw := hws w (List.mem_cons_self w ws')
              have hnetok := hne tok (List.mem_cons_self tok toks')
              have hros : wsOrSemi (renderToks tokRender ws' toks'
                  ++ (wz ++ (';' :: rest))) = true :=
                wsOrSemi_render_tail tokRender ws' toks' wz rest
                  (fun x hx => hws x (List.mem_cons_of_mem w hx)) hwz
              have hms : ms1 ((w ++ (tokRender tok ++ renderToks tokRender ws' toks'))
                  ++ (wz ++ (';' :: rest)))
                  = .ok ((tokRender tok ++ renderToks tokRender ws' toks')
                    ++ (wz ++ (';' :: rest))) () := by
                rw [show (w ++ (tokRender tok ++ renderToks tokRender ws' toks'))
                    ++ (wz ++ (';' :: rest))
                  = w ++ ((tokRender tok ++ renderToks tokRender ws' toks')
                    ++ (wz ++ (';' :: rest))) from by simp]
                refine ms1_append _ _ hw ?_
                rw [show (tokRender tok ++ renderToks tokRender ws' toks')
                    ++ (wz ++ (';' :: rest))
                  = tokRender tok ++ (renderToks tokRender ws' toks'
                    ++ (wz ++ (';' :: rest))) from by simp]
                exact headNot_append isWs _ _ hnetok.1 hnetok.2
              have hfel : f ((tokRender tok ++ renderToks tokRender ws' toks')
                  ++ (wz ++ (';' :: rest)))
                  = .ok (renderToks tokRender ws' toks' ++ (wz ++ (';' :: rest)))
                    (tokVal tok) := by
                rw [show (tokRender tok ++ renderToks tokRender ws' toks')
                    ++ (wz ++ (';' :: rest))
                  = tokRender tok ++ (renderToks tokRender ws' toks'
                    ++ (wz ++ (';' :: rest))) from by simp]
                exact helem tok _ (List.mem_cons_self tok toks') hros
              rw [renderToks]
              simp only [many0F, hms, hfel]
              have hlt : (renderToks tokRender ws' toks' ++ (wz ++ (';' :: rest))).length
                  < ((w ++ (tokRender tok ++ renderToks tokRender ws' toks'))
                    ++ (wz ++ (';' :: rest))).length := by
                cases w with
                | nil => simp [elemWsOk] at hw
                | cons a b =>
                    simp only [List.cons_append, List.length_cons, List.length_append]
                    omega
              rw [if_pos hlt]
              rw [ih ws' wz rest fl (by simpa using hlen)
                (fun x hx => hws x (List.mem_cons_of_mem w hx)) hwz
                (fun x hx => hne x (List.mem_cons_of_mem tok hx))
                (fun x r hx hr => helem x r (List.mem_cons_of_mem tok hx) hr) hsemi
                (by
                  have h1 := hlt
                  have h2 : ((w ++ (tokRender tok ++ renderToks tokRender ws' toks'))
                      ++ (wz ++ (';' :: rest))).length < fl + 1 := by
                    rw [renderToks] at hfuel
                    exact hfuel
                  omega)]
              simp

theorem parse_value_many0_render {α τ : Type} (key : List Char)
    (f : List Char → PRes α) (tokRender : τ → List Char) (tokVal : τ → α)
    (toks : List τ) (ws : List (List Char)) (w0 wz rest : List Char)
    (hw0 : wsOk w0 = true) (hk0 : ¬key = []) (hk : headNot isWs key = true)
    (hlen : ws.length = toks.length)
    (hws : ∀ w ∈ ws, elemWsOk w = true)
    (hwz : wsOk wz = true)
    (hne : ∀ tok ∈ toks, ¬tokRender tok = [] ∧ headNot isWs (tokRender tok) = true)
    (helem : ∀ tok r, tok ∈ toks → wsOrSemi r = true →
      f (tokRender tok ++ r) = .ok r (tokVal tok))
    (hsemi : ∀ r', ∃ p k, f (';' :: r') = .fail p k) :
    parse_value_many0 key f
      (renderListC w0 key (renderToks tokRender ws toks) wz rest)
      = .ok rest (toks.map tokVal) := by
  have ht2 : tagP [';'] (';' :: rest) = some rest := tagP_append [';'] rest
  have e1 : ms0 (w0 ++ (key ++ (renderToks tokRender ws toks ++ (wz ++ (';' :: rest)))))
      = key ++ (renderToks tokRender ws toks ++ (wz ++ (';' :: rest))) := by
    rw [ms0_append _ _ hw0]
    exact ms0_id _ (headNot_append isWs key _ hk0 hk)
  have e3 : ms0 (wz ++ (';' :: rest)) = ';' :: rest := by
    rw [ms0_append _ _ hwz]
    exact ms0_id _ (by rw [headNot_cons]; decide)
  have hloop := many0F_elems f tokRender tokVal toks ws wz rest
    ((renderToks tokRender ws toks ++ (wz ++ (';' :: rest))).length + 1)
    hlen hws hwz hne helem hsemi (by omega)
  unfold parse_value_many0 renderListC
  simp only [e1, tagP_append, hloop, e3, ht2]

theorem idOk_headNot (i : List Char) (hi : idOk i = true) :
    ¬i = [] ∧ headNot isWs i = true := by
  cases i with
  | nil => simp [idOk] at hi
  | cons c cs =>
      simp only [idOk, List.all_cons, Bool.and_eq_true] at hi
      have hc := hi.2.1
      refine ⟨by simp, ?_⟩
      rw [headNot_cons]
      cases hid : is_idchar c with
      | true => simp [idchar_not_ws c hid]
      | false =>
          rw [hid] at hc
          simp only [Bool.false_or, decide_eq_true_eq] at hc
          subst hc
          decide

theorem symOk_headNot (s : List Char) (hs : symOk s = true) :
    ¬s = [] ∧ headNot isWs s = true := by
  cases s with
  | nil => simp [symOk] at hs
  | cons c cs =>
      simp only [symOk, List.all_cons, Bool.and_eq_true] at hs
      refine ⟨by simp, ?_⟩
      rw [headNot_cons]
      simp [idchar_not_ws c hs.2.1]

theorem pairR_headNot (p : List Char × List (List Char))
    (h1 : ¬p.1 = []) (hh : headNot isWs p.1 = true) :
    ¬renderPair p = [] ∧ headNot isWs (renderPair p) = true := by
  obtain ⟨s, gs⟩ := p
  cases s with
  | nil => exact absurd rfl h1
  | cons c cs =>
      constructor
      · simp [renderPair]
      · rw [show renderPair (c :: cs, gs) = c :: (cs ++ ':' :: renderNum gs) from by
          simp [renderPair]]
        rw [headNot_cons]
        rw [headNot_cons] at hh
        exact hh

theorem parse_id_semi (r' : List Char) :
    parse_id (';' :: r') = .fail (';' :: r') .takeWhile1 := by
  simp only [parse_id, takeWhile1P]
  rw [if_neg (by decide)]

theorem parse_sym_semi (r' : List Char) :
    parse_sym (';' :: r') = .fail (';' :: r') .takeWhile1 := by
  simp only [parse_sym, takeWhile1P]
  rw [if_neg (by decide)]

theorem symPair_semi (r' : List Char) :
    pairPayload parse_sym (';' :: r') = .fail (';' :: r') .takeWhile1 := by
  unfold pairPayload
  rw [parse_sym_semi]

theorem lockPair_semi (r' : List Char) :
    pairPayload parse_id (';' :: r') = .fail (';' :: r') .takeWhile1 := by
  unfold pairPayload
  rw [parse_id_semi]

theorem access_stage (t : AdminTokens) (l : AdminLayout)
    (hw0 : wsOk l.aw0 = true) (hlen : l.awE.length = t.accessI.length)
    (hws : l.awE.all elemWsOk = true) (hwz : wsOk l.awZ = true)
    (htoks : t.accessI.all idOk = true) :
    parse_value_many0 "access".toList parse_id (tailAccess t l)
      = .ok (tailSymbols t l) t.accessI := by
  have hwsm : ∀ w ∈ l.awE, elemWsOk w = true := List.all_eq_true.mp hws
  have htm : ∀ i ∈ t.accessI, idOk i = true := List.all_eq_true.mp htoks
  have h := parse_value_many0_render "access".toList parse_id (fun i => i) (fun i => i)
    t.accessI l.awE l.aw0 l.awZ (tailSymbols t l) hw0 (by decide) (by decide)
    hlen hwsm hwz
    (fun tok hm => idOk_headNot tok (htm tok hm))
    (fun tok r hm hr => parse_id_render tok r (htm tok hm) (wsOrSemi_headNots r hr).1)
    (fun r' => ⟨_, _, parse_id_semi r'⟩)
  unfold tailAccess
  simpa using h

theorem symbols_stage (t : AdminTokens) (l : AdminLayout)
    (hw0 : wsOk l.sw0 = true) (hlen : l.swE.length = t.symbolsP.length)
    (hws : l.swE.all elemWsOk = true) (hwz : wsOk l.swZ = true)
    (htoks : t.symbolsP.all (fun p => symOk p.1 && groupsOk p.2) = true) :
    parse_value_many0 "symbols".toList (pairPayload parse_sym) (tailSymbols t l)
      = .ok (tailLocks t l) (t.symbolsP.map (fun p => (p.1, numOfGroups p.2))) := by
  have hwsm : ∀ w ∈ l.swE, elemWsOk w = true := List.all_eq_true.mp hws
  have htm : ∀ p ∈ t.symbolsP, symOk p.1 = true ∧ groupsOk p.2 = true := by
    intro p hp
    have := List.all_eq_true.mp htoks p hp
    simpa [Bool.and_eq_true] using this
  have h := parse_value_many0_render "symbols".toList (pairPayload parse_sym)
    renderPair (fun p => (p.1, numOfGroups p.2))
    t.symbolsP l.swE l.sw0 l.swZ (tailLocks t l) hw0 (by decide) (by decide)
    hlen hwsm hwz
    (fun tok hm => pairR_headNot tok (symOk_headNot tok.1 (htm tok hm).1).1
      (symOk_headNot tok.1 (htm tok hm).1).2)
    (fun tok r hm hr => by
      rw [show renderPair tok ++ r = tok.1 ++ (':' :: (renderNum tok.2 ++ r)) from by
        simp [renderPair]]
      exact symPair_render tok.1 tok.2 r (htm tok hm).1 (htm tok hm).2
        (wsOrSemi_headNots r hr).2.1)
    (fun r' => ⟨_, _, symPair_semi r'⟩)
  unfold tailSymbols
  exact h

theorem locks_stage (t : AdminTokens) (l : AdminLayout)
    (hw0 : wsOk l.lw0 = true) (hlen : l.lwE.length = t.locksP.length)
    (hws : l.lwE.all elemWsOk = true) (hwz : wsOk l.lwZ = true)
    (htoks : t.locksP.all (fun p => idOk p.1 && groupsOk p.2) = true) :
    parse_value_many0 "locks".toList (pairPayload parse_id) (tailLocks t l)
      = .ok (tailStrict t l) (t.locksP.map (fun p => (p.1, numOfGroups p.2))) := by
  have hwsm : ∀ w ∈ l.lwE, elemWsOk w = true := List.all_eq_true.mp hws
  have htm : ∀ p ∈ t.locksP, idOk p.1 = true ∧ groupsOk p.2 = true := by
    intro p hp
    have := List.all_eq_true.mp htoks p hp
    simpa [Bool.and_eq_true] using this
  have h := parse_value_many0_render "locks".toList (pairPayload parse_id)
    renderPair (fun p => (p.1, numOfGroups p.2))
    t.locksP l.lwE l.lw0 l.lwZ (tailStrict t l) hw0 (by decide) (by decide)
    hlen hwsm hwz
    (fun tok hm => pairR_headNot tok (idOk_headNot tok.1 (htm tok hm).1).1
      (idOk_headNot tok.1 (htm tok hm).1).2)
    (fun tok r hm hr => by
      rw [show renderPair tok ++ r = tok.1 ++ (':' :: (renderNum tok.2 ++ r)) from by
        simp [renderPair]]
      exact lockPair_render tok.1 tok.2 r (htm tok hm).1 (htm tok hm).2
        (wsOrSemi_headNots r hr).2.1)
    (fun r' => ⟨_, _, lockPair_semi r'⟩)
  unfold tailLocks
  exact h

theorem expandTail_shape (t : AdminTokens) (l : AdminLayout)
    (hew0 : wsOk l.ew0 = true) :
    ms0 (expandPiece t l []) = []
    ∨ (∃ X, ms0 (expandPiece t l []) = 'e' :: X) := by
  unfold expandPiece
  cases t.expandS with
  | none => left; rfl
  | some s =>
      right
      have e : ms0 (renderStrKVc l.ew0 "expand".toList l.ew1 s l.ew2 [])
          = "expand".toList
            ++ (l.ew1 ++ ('@' :: (s ++ ('@' :: (l.ew2 ++ (';' :: ([] : List Char))))))) := by
        unfold renderStrKVc
        rw [ms0_append _ _ hew0]
        exact ms0_id _ (headNot_append isWs "expand".toList _ (by decide) (by decide))
      exact ⟨_, e⟩

theorem commentTail_shape (t : AdminTokens) (l : AdminLayout)
    (hcw0 : wsOk l.cw0 = true) (hew0 : wsOk l.ew0 = true) :
    ms0 (commentPiece t l (expandPiece t l [])) = []
    ∨ (∃ X, ms0 (commentPiece t l (expandPiece t l [])) = 'c' :: X)
    ∨ (∃ X, ms0 (commentPiece t l (expandPiece t l [])) = 'e' :: X) := by
  unfold commentPiece
  cases t.commentS with
  | none =>
      rcases expandTail_shape t l hew0 with h | ⟨X, h⟩
      · left; exact h
      · right; right; exact ⟨X, h⟩
  | some s =>
      right; left
      have e : ms0 (renderStrKVc l.cw0 "comment".toList l.cw1 s l.cw2 (expandPiece t l []))
          = "comment".toList
            ++ (l.cw1 ++ ('@' :: (s ++ ('@' :: (l.cw2 ++ (';' :: expandPiece t l [])))))) := by
        unfold renderStrKVc
        rw [ms0_append _ _ hcw0]
        exact ms0_id _ (headNot_append isWs "comment".toList _ (by decide) (by decide))
      exact ⟨_, e⟩

theorem tailOpts_shape (t : AdminTokens) (l : AdminLayout)
    (hiw0 : wsOk l.iw0 = true) (hcw0 : wsOk l.cw0 = true) (hew0 : wsOk l.ew0 = true) :
    ms0 (tailOpts t l) = []
    ∨ (∃ X, ms0 (tailOpts t l) = 'i' :: X)
    ∨ (∃ X, ms0 (tailOpts t l) = 'c' :: X)
    ∨ (∃ X, ms0 (tailOpts t l) = 'e' :: X) := by
  unfold tailOpts integrityPiece
  cases t.integrityS with
  | none =>
      rcases commentTail_shape t l hcw0 hew0 with h | ⟨X, h⟩ | ⟨X, h⟩
      · left; exact h
      · right; right; left; exact ⟨X, h⟩
      · right; right; right; exact ⟨X, h⟩
  | some s =>
      right; left
      have e : ms0 (renderStrKVc l.iw0 "integrity".toList l.iw1 s l.iw2
            (commentPiece t l (expandPiece t l [])))
          = "integrity".toList
            ++ (l.iw1 ++ ('@' :: (s ++ ('@' :: (l.iw2
              ++ (';' :: commentPiece t l (expandPiece t l []))))))) := by
        unfold renderStrKVc
        rw [ms0_append _ _ hiw0]
        exact ms0_id _ (headNot_append isWs "integrity".toList _ (by decide) (by decide))
      exact ⟨_, e⟩

theorem expand_stage (t : AdminTokens) (l : AdminLayout)
    (hw0 : wsOk l.ew0 = true) (hw1 : wsOk l.ew1 = true) (hw2 : wsOk l.ew2 = true)
    (hstr : (match t.expandS with | none => true | some s => strOk s) = true) :
    parse_value_all_opt "expand".toList parse_string (expandPiece t l [])
      = .ok [] t.expandS := by
  unfold expandPiece
  cases hE : t.expandS with
  | none => exact parse_value_all_opt_none _ _ _ rfl
  | some s =>
      simp only [hE] at hstr
      exact all_opt_string_render "expand".toList s l.ew0 l.ew1 l.ew2 [] hw0 hw1 hw2
        (by decide) (by decide) hstr (headNot_at_ws_semi l.ew2 [] hw2)

theorem comment_stage (t : AdminTokens) (l : AdminLayout)
    (hw0 : wsOk l.cw0 = true) (hw1 : wsOk l.cw1 = true) (hw2 : wsOk l.cw2 = true)
    (hew0 : wsOk l.ew0 = true)
    (hstr : (match t.commentS with | none => true | some s => strOk s) = true) :
    parse_value_all_opt "comment".toList parse_string
      (commentPiece t l (expandPiece t l []))
      = .ok (expandPiece t l []) t.commentS := by
  unfold commentPiece
  cases hC : t.commentS with
  | none =>
      apply parse_value_all_opt_none
      rcases expandTail_shape t l hew0 with h | ⟨X, h⟩ <;> rw [h]
      · rfl
      · exact tagP_head_ne 'c' 'e' _ _ (by decide)
  | some s =>
      simp only [hC] at hstr
      exact all_opt_string_render "comment".toList s l.cw0 l.cw1 l.cw2
        (expandPiece t l []) hw0 hw1 hw2 (by decide) (by decide) hstr
        (headNot_at_ws_semi l.cw2 _ hw2)

theorem integrity_stage (t : AdminTokens) (l : AdminLayout)
    (hw0 : wsOk l.iw0 = true) (hw1 : wsOk l.iw1 = true) (hw2 : wsOk l.iw2 = true)
    (hcw0 : wsOk l.cw0 = true) (hew0 : wsOk l.ew0 = true)
    (hstr : (match t.integrityS with | none => true | some s => strOk s) = true) :
    parse_value_all_opt "integrity".toList parse_intstring (tailOpts t l)
      = .ok (commentPiece t l (expandPiece t l [])) t.integrityS := by
  unfold tailOpts integrityPiece
  cases hI : t.integrityS with
  | none =>
      apply parse_value_all_opt_none
      rcases commentTail_shape t l hcw0 hew0 with h | ⟨X, h⟩ | ⟨X, h⟩ <;> rw [h]
      · rfl
      · exact tagP_head_ne 'i' 'c' _ _ (by decide)
      · exact tagP_head_ne 'i' 'e' _ _ (by decide)
  | some s =>
      simp only [hI] at hstr
      exact all_opt_intstring_render "integrity".toList s l.iw0 l.iw1 l.iw2
        (commentPiece t l (expandPiece t l [])) hw0 hw1 hw2 (by decide) (by decide) hstr

theorem strict_stage (t : AdminTokens) (l : AdminLayout)
    (hw0 : wsOk l.tw0 = true) (hw1 : wsOk l.tw1 = true)
    (hiw0 : wsOk l.iw0 = true) (hcw0 : wsOk l.cw0 = true) (hew0 : wsOk l.ew0 = true) :
    parse_strict (tailStrict t l) = .ok (tailOpts t l) t.strictF := by
  unfold tailStrict strictPiece
  cases hS : t.strictF with
  | true =>
      simp only [if_true]
      exact parse_strict_present l.tw0 l.tw1 (tailOpts t l) hw0 hw1
  | false =>
      simp only [Bool.false_eq_true, if_false]
      apply parse_strict_absent
      rcases tailOpts_shape t l hiw0 hcw0 hew0 with h | ⟨X, h⟩ | ⟨X, h⟩ | ⟨X, h⟩ <;> rw [h]
      · rfl
      · exact tagP_head_ne 's' 'i' _ _ (by decide)
      · exact tagP_head_ne 's' 'c' _ _ (by decide)
      · exact tagP_head_ne 's' 'e' _ _ (by decide)

theorem branch_stage (t : AdminTokens) (l : AdminLayout)
    (hw0 : wsOk l.bw0 = true) (hw1 : wsOk l.bw1 = true) (hw2 : wsOk l.bw2 = true)
    (haw0 : wsOk l.aw0 = true)
    (hbr : (match t.branchN with | none => true | some gs => groupsOk gs) = true) :
    parse_value_all_opt "branch".toList parse_num (tailBranch t l)
      = .ok (tailAccess t l) (t.branchN.map numOfGroups) := by
  unfold tailBranch branchPiece
  cases hB : t.branchN with
  | none =>
      apply parse_value_all_opt_none
      have e : ms0 (tailAccess t l)
          = "access".toList ++ (renderToks (fun i => i) l.awE t.accessI
            ++ (l.awZ ++ (';' :: tailSymbols t l))) := by
        unfold tailAccess renderListC
        rw [ms0_append _ _ haw0]
        exact ms0_id _ (headNot_append isWs "access".toList _ (by decide) (by decide))
      rw [e]
      exact tagP_head_ne 'b' 'a' _ _ (by decide)
  | some gs =>
      simp only [hB] at hbr
      simp only [Option.map_some']
      exact parse_value_all_opt_render "branch".toList parse_num l.bw0 l.bw1 l.bw2
        (renderNum gs) (tailAccess t l) (numOfGroups gs) hw0 hw1 hw2
        (by decide) (by decide) (headNot_ws_renderNum gs _ hbr)
        (parse_num_render gs _ hbr (headNot_digitDot_ws_semi l.bw2 _ hw2))

theorem parse_admin_render (t : AdminTokens) (l : AdminLayout)
    (ht : wfTokens t = true) (hl : wfLayout t l = true) :
    parse_admin (renderAdmin t l) = .ok [] (rcsOfTokens t) := by
  simp only [wfTokens, Bool.and_eq_true] at ht
  obtain ⟨⟨⟨⟨⟨⟨⟨hT1, hT2⟩, hT3⟩, hT4⟩, hT5⟩, hT6⟩, hT7⟩, hT8⟩ := ht
  simp only [wfLayout, Bool.and_eq_true, beq_iff_eq] at hl
  obtain ⟨⟨⟨⟨⟨⟨⟨⟨⟨⟨⟨⟨⟨⟨⟨⟨⟨⟨⟨⟨⟨⟨⟨⟨⟨⟨⟨⟨hL1, hL2⟩, hL3⟩, hL4⟩, hL5⟩, hL6⟩, hL7⟩,
    hL8⟩, hL9⟩, hL10⟩, hL11⟩, hL12⟩, hL13⟩, hL14⟩, hL15⟩, hL16⟩, hL17⟩, hL18⟩,
    hL19⟩, hL20⟩, hL21⟩, hL22⟩, hL23⟩, hL24⟩, hL25⟩, hL26⟩, hL27⟩, hL28⟩, hL29⟩ := hl
  have s1 : parse_value "head".toList parse_num
      (renderKVc l.hw0 "head".toList l.hw1 (renderNum t.headN) l.hw2 (tailBranch t l))
      = .ok (tailBranch t l) (numOfGroups t.headN) :=
    parse_value_render "head".toList parse_num l.hw0 l.hw1 l.hw2 (renderNum t.headN)
      (tailBranch t l) (numOfGroups t.headN) hL1 hL2 hL3 (by decide) (by decide)
      (headNot_ws_renderNum t.headN _ hT1)
      (parse_num_render t.headN _ hT1 (headNot_digitDot_ws_semi l.hw2 _ hL3))
  have s2 := branch_stage t l hL4 hL5 hL6 hL7 hT2
  have s3 := access_stage t l hL7 hL8 hL9 hL10 hT3
  have s4 := symbols_stage t l hL11 hL12 hL13 hL14 hT4
  have s5 := locks_stage t l hL15 hL16 hL17 hL18 hT5
  have s6 := strict_stage t l hL19 hL20 hL21 hL24 hL27
  have s7 := integrity_stage t l hL21 hL22 hL23 hL24 hL27 hT6
  have s8 := comment_stage t l hL24 hL25 hL26 hL27 hT7
  have s9 := expand_stage t l hL27 hL28 hL29 hT8
  unfold parse_admin renderAdmin
  simp only [s1, s2, s3, s4, s5, s6, s7, s8, s9]
  simp [rcsOfTokens]

/-- C4: `parse_string` decodes an `@`-delimited literal: any body written with
every content `@` doubled decodes back to the content, stopping at the first
single `@`; concretely `"@@"` decodes to `""`, `"@abc@@def@"` to
`"abc@def"`, and the unterminated `"@zzz"` fails with a lexical (Tag) error
whose position is the end of input. -/
theorem parse_string_spec :
    (∀ s rest : List Char, rest.head? ≠ some '@' →
        parse_string ('@' :: (escapeAt s ++ '@' :: rest)) = .ok rest s)
    ∧ parse_string "@@".toList = .ok [] []
    ∧ parse_string "@abc@@def@".toList = .ok [] "abc@def".toList
    ∧ parse_string "@zzz".toList = .fail [] .tag := by
  refine ⟨?_, by decide, by decide, by decide⟩
  intro s rest h
  simp [parse_string, stringBody_escape s rest h]

theorem parse_string_spec_witness :
    parse_string ('@' :: (escapeAt "a@b".toList ++ '@' :: "tail".toList))
      = .ok "tail".toList "a@b".toList :=
  parse_string_spec.1 "a@b".toList "tail".toList (by decide)

theorem parse_diff_lines_length :
    ∀ n input rest lines, parse_diff_lines input n = .ok rest lines →
      lines.length = n := by
  intro n
  induction n with
  | zero =>
      intro input rest lines h
      simp only [parse_diff_lines, PRes.ok.injEq] at h
      rw [← h.2]
      simp
  | succ n ih =>
      intro input rest lines h
      simp only [parse_diff_lines] at h
      cases hd : parse_diff_line input with
      | ok r line =>
          rw [hd] at h
          have h2 : (match parse_diff_lines r n with
              | PRes.ok rest2 ls => PRes.ok rest2 (line :: ls)
              | e => e) = PRes.ok rest lines := h
          cases hr : parse_diff_lines r n with
          | ok r2 ls =>
              rw [hr] at h2
              simp only [PRes.ok.injEq] at h2
              rw [← h2.2]
              simp [ih _ _ _ hr]
          | fail p k => rw [hr] at h2; simp at h2
          | panic => rw [hr] at h2; simp at h2
      | fail p k => rw [hd] at h; simp at h
      | panic => rw [hd] at h; simp at h

theorem parse_diff_command_opcode (c : Char) (rest : List Char)
    (h : ¬(c = 'a' ∨ c = 'd')) :
    parse_diff_command (c :: rest) = .fail (c :: rest) .oneOf := by
  simp [parse_diff_command, one_ofP, h]

/-- C5: `parse_diff_command` accepts exactly the opcodes `a` and `d` (any
other first character gives the OneOf error); `d1 2\r\n` is `Delete(1,2)`
with no body, `a2 2\nX\nY\n` reads exactly two lines into `Add(2,[X,Y])`,
`c2 3\n` is rejected; a successful `parse_diff_lines` always returns exactly
`count` lines, and input with fewer terminated lines is a hard failure. -/
theorem parse_diff_command_spec :
    (∀ c rest, ¬(c = 'a' ∨ c = 'd') →
        parse_diff_command (c :: rest) = .fail (c :: rest) .oneOf)
    ∧ parse_diff_command "d1 2
".toList = .ok [] (.Delete 1 2)
    ∧ parse_diff_command "a2 2
X
Y
".toList = .ok [] (.Add 2 ["X".toList, "Y".toList])
    ∧ parse_diff_command "c2 3
".toList = .fail "c2 3
".toList .oneOf
    ∧ (∀ n input rest lines, parse_diff_lines input n = .ok rest lines →
        lines.length = n)
    ∧ parse_diff_lines "X
".toList 2 = .fail [] .crlf :=
  ⟨parse_diff_command_opcode, by decide, by decide, by decide,
   parse_diff_lines_length, by decide⟩

theorem parse_diff_command_spec_witness :
    parse_diff_command ('x' :: "1 1
".toList) = .fail ('x' :: "1 1
".toList) .oneOf
    ∧ (["X".toList, "Y".toList] : List (List Char)).length = 2 :=
  ⟨parse_diff_command_spec.1 'x' "1 1
".toList (by decide),
   parse_diff_command_spec.2.2.2.2.1 2 "X
Y
".toList [] ["X".toList, "Y".toList] (by decide)⟩

/-- C10 counterexample: `parse_value_all_opt` instantiated exactly as in the
admin `branch` clause (payload `parse_num`) neither succeeds with a value nor
defers with `none` on `branch 4294967296;`: the payload's `unwrap` panics
inside the clause, so the combinator is not failure-free for every payload
parser. -/
theorem parse_value_all_opt_panics :
    parse_value_all_opt "branch".toList parse_num "branch 4294967296;".toList
      = .panic := by decide

/-- C10 (amended): for every keyword and payload parser that cannot panic,
`parse_value_all_opt` never fails: it either consumes a complete clause and
returns `some` value, or returns `none` and consumes no input at all,
deferring any error to the next parser. -/
theorem parse_value_all_opt_total {α : Type} (key : List Char)
    (f : List Char → PRes α) (input : List Char)
    (hf : ∀ s, f s ≠ .panic) :
    parse_value_all_opt key f input = .ok input none
    ∨ ∃ rest v, parse_value_all_opt key f input = .ok rest (some v) := by
  unfold parse_value_all_opt
  split
  · left; rfl
  case h_2 i2 heq =>
    split
    case h_1 i3 v heq2 =>
      split
      · right; exact ⟨_, v, rfl⟩
      · left; rfl
    case h_2 => left; rfl
    case h_3 heq2 => exact absurd heq2 (hf _)

theorem parse_value_all_opt_total_witness :
    parse_value_all_opt "k".toList (fun s => (.fail s .tag : PRes Num)) "x".toList
      = .ok "x".toList none
    ∨ ∃ rest v,
        parse_value_all_opt "k".toList (fun s => (.fail s .tag : PRes Num)) "x".toList
          = .ok rest (some v) :=
  parse_value_all_opt_total "k".toList (fun s => (.fail s .tag : PRes Num))
    "x".toList (fun _ h => nomatch h)

/-- C6: a line read as part of an add-command body is stored verbatim:
`parse_diff_line` applies no `@@` → `@` unescaping, so the raw line `x@@y`
is stored as `x@@y` (the claim expects `x@y`). -/
theorem diff_line_no_unescape :
    parse_diff_command "a1 1\nx@@y\n".toList = .ok [] (.Add 1 ["x@@y".toList]) := by decide

/-- C7 counterexample: two admin blocks that differ only in one space before
the `:` of a symbols pair. The first parses; the second is rejected, so
whitespace around the pair `:` is not tolerated. -/
theorem parse_admin_colon_ws_cx :
    (parse_admin "head 1.1;access;symbols a:1.1;locks;".toList).isOk = true
    ∧ (parse_admin "head 1.1;access;symbols a :1.1;locks;".toList).isOk = false := by
  constructor
  · decide
  · decide

/-- C7 (amended): for one token content and any two well-formed whitespace
layouts — whitespace varying freely between clause-level tokens, but none
inside a `sym:num`/`id:num` pair — `parse_admin` succeeds on both renderings
and returns the same document, so in particular identical `head`, `symbols`,
`locks`, and `strict` fields. -/
theorem parse_admin_ws_insensitive (t : AdminTokens) (l1 l2 : AdminLayout)
    (ht : wfTokens t = true) (h1 : wfLayout t l1 = true) (h2 : wfLayout t l2 = true) :
    parse_admin (renderAdmin t l1) = .ok [] (rcsOfTokens t)
    ∧ parse_admin (renderAdmin t l2) = .ok [] (rcsOfTokens t) :=
  ⟨parse_admin_render t l1 ht h1, parse_admin_render t l2 ht h2⟩

theorem parse_admin_ws_insensitive_witness :
    parse_admin (renderAdmin wsTokensA wsLayoutA) = .ok [] (rcsOfTokens wsTokensA)
    ∧ parse_admin (renderAdmin wsTokensA wsLayoutB) = .ok [] (rcsOfTokens wsTokensA) :=
  parse_admin_ws_insensitive wsTokensA wsLayoutA wsLayoutB (by decide) (by decide)
    (by decide)

end Rcs
